import Mathlib

/-!
Verification of the ELRU buffer replacement policy engine
(src/elru/freelist_elru.c) against its natural-language specification.

The C file is shallowly embedded: the shared state (the BufferNode array
called elruStack, the BufferStrategyControl singleton and the per-descriptor
freeNext fields) becomes an explicit record that every operation threads.
Machine integers are modelled as Int/Nat; the C comparator truncates a
64-bit difference to a 32-bit int, which is modelled by an explicit
wrap into the interval from -2147483648 to 2147483647.  Pointer
dereferences of possibly-NULL links return Option: a none result of an
operation models a crash (NULL dereference) or divergence of the original
code.  Unbounded C loops are given fuel that exceeds the longest terminating
run; exhausting the fuel also yields none.  The external clock
(getCurrentTimeNanoseconds) is passed in as the timestamp argument t of
each operation, and the external buffer descriptor fields refcount and
usage_count are passed in as lists indexed by frame id.

In the C source every node carries a node_id field that StrategyInitialize
sets to the array index and that is never written again; pointer identity
tests of the form p->node_id == buf_id are therefore modelled as index
comparisons, and nodes are identified with their index in the nodes list.
-/

/-- TIMESTAMP_NIL sentinel from the source (line 25). -/
def TIMESTAMP_NIL : Int := -1

/-- Modelled from the spec: FREENEXT_NOT_IN_LIST is the sentinel of the
external descriptor table (buf_internals.h, not in src/) marking a frame
that is not on the free list; the spec calls it NOT_IN_LIST. -/
def FREENEXT_NOT_IN_LIST : Int := -2

/-- Modelled from the spec: the page size in bytes used to size rings
(BLCKSZ of the surrounding system, default build value). -/
def BLCKSZ : Nat := 8192

/-- One buffer node of the elruStack array (source lines 38-47).  The
node_id field is omitted: it always equals the index of the node in the
array (see the module comment). -/
structure BufferNode where
  prev : Option Nat
  next : Option Nat
  last_accessed : Int
  second_last_accessed : Int
deriving Repr, DecidableEq

/-- The state StrategyInitialize gives a node: timestamps NIL, links none. -/
def defaultNode : BufferNode :=
  { prev := none, next := none,
    last_accessed := TIMESTAMP_NIL, second_last_accessed := TIMESTAMP_NIL }

/-- The shared engine state: the elruStack node array together with the
fields of BufferStrategyControl (source lines 55-94) and the external
per-descriptor freeNext fields used by the free list.  NBuffers is
nodes.length. -/
structure StrategyState where
  nodes : List BufferNode
  stackTop : Option Nat
  stackBottom : Option Nat
  firstFreeBuffer : Int
  lastFreeBuffer : Int
  freeNext : List Int
  nextVictimBuffer : Nat
  completePasses : Nat
  numBufferAllocs : Nat
  bgwprocno : Int
deriving Repr, DecidableEq

/-- Read elruStack[i].  Reads are always in range in reachable states; the
default is only to make the function total. -/
def getNode (s : StrategyState) (i : Nat) : BufferNode :=
  s.nodes.getD i defaultNode

/-- Write elruStack[i] (out-of-range writes are dropped, matching that they
never occur in reachable states). -/
def setNode (s : StrategyState) (i : Nat) (nd : BufferNode) : StrategyState :=
  { s with nodes := s.nodes.set i nd }

/-- isRemovedNode (source lines 217-219). -/
def isRemovedNode (n : BufferNode) : Bool :=
  n.last_accessed == TIMESTAMP_NIL && n.second_last_accessed == TIMESTAMP_NIL

/-- Conversion of a 64-bit integer to a 32-bit signed int, as performed by
the return statement of compareELRU, whose declared return type is int
while the subtracted timestamps are long long. -/
def wrap32 (x : Int) : Int :=
  (x + 2147483648) % 4294967296 - 2147483648

/-- compareELRU (source lines 222-243).  The two subtraction cases truncate
the 64-bit difference to int, hence the wrap32. -/
def compareELRU (a b : BufferNode) : Int :=
  if isRemovedNode a then 1
  else if isRemovedNode b then -1
  else if a.second_last_accessed == TIMESTAMP_NIL && b.second_last_accessed == TIMESTAMP_NIL then
    wrap32 (a.last_accessed - b.last_accessed)
  else if a.second_last_accessed == TIMESTAMP_NIL then -1
  else if b.second_last_accessed == TIMESTAMP_NIL then 1
  else wrap32 (a.second_last_accessed - b.second_last_accessed)

/-- Loop body of processStackBottomToTop (source lines 259-302), walking
from the bottom of the stack toward the top along the prev links.  Every
iteration of the C loop consumes one unit of fuel; none models running out
of fuel (only possible on a cyclic, corrupted chain, where the C loop
diverges) or a NULL dereference of stackTop. -/
def pSBT_go (s : StrategyState) (nid : Nat) : Nat → Nat → Option StrategyState
  | _, 0 => none
  | cur, fuel + 1 =>
    match s.stackTop with
    | none => none
    | some tp =>
      if cur = tp then
        if compareELRU (getNode s nid) (getNode s cur) > 0 then
          -- current->prev = node; node->next = current; node->prev = NULL; stackTop = node
          let s1 := setNode s cur { getNode s cur with prev := some nid }
          let s2 := setNode s1 nid { getNode s1 nid with next := some cur }
          let s3 := setNode s2 nid { getNode s2 nid with prev := none }
          some { s3 with stackTop := some nid }
        else
          match (getNode s cur).next with
          | none =>
            -- node->prev = current; current->next = node; stackBottom = node
            -- (note: node->next is NOT written on this path in the source)
            let s1 := setNode s nid { getNode s nid with prev := some cur }
            let s2 := setNode s1 cur { getNode s1 cur with next := some nid }
            some { s2 with stackBottom := some nid }
          | some nxt =>
            -- current->next->prev = node; node->next = current->next;
            -- current->next = node; node->prev = current
            let s1 := setNode s nxt { getNode s nxt with prev := some nid }
            let s2 := setNode s1 nid { getNode s1 nid with next := some nxt }
            let s3 := setNode s2 cur { getNode s2 cur with next := some nid }
            let s4 := setNode s3 nid { getNode s3 nid with prev := some cur }
            some s4
      else
        if compareELRU (getNode s nid) (getNode s cur) ≤ 0 then
          match (getNode s cur).next with
          | none =>
            -- stackBottom = node; node->prev = current; node->next = NULL;
            -- current->next = node
            let s1 := { s with stackBottom := some nid }
            let s2 := setNode s1 nid { getNode s1 nid with prev := some cur }
            let s3 := setNode s2 nid { getNode s2 nid with next := none }
            let s4 := setNode s3 cur { getNode s3 cur with next := some nid }
            some s4
          | some nxt =>
            let s1 := setNode s nxt { getNode s nxt with prev := some nid }
            let s2 := setNode s1 nid { getNode s1 nid with next := some nxt }
            let s3 := setNode s2 cur { getNode s2 cur with next := some nid }
            let s4 := setNode s3 nid { getNode s3 nid with prev := some cur }
            some s4
        else
          match (getNode s cur).prev with
          | none => some s -- current becomes NULL: the loop exits without inserting
          | some p => pSBT_go s nid p fuel

/-- processStackBottomToTop (source lines 247-303). -/
def processStackBottomToTop (s : StrategyState) (nid : Nat) : Option StrategyState :=
  match s.stackBottom with
  | none =>
    -- empty stack: node becomes both top and bottom, links cleared
    let s1 := { s with stackBottom := some nid, stackTop := some nid }
    let s2 := setNode s1 nid { getNode s1 nid with next := none }
    some (setNode s2 nid { getNode s2 nid with prev := none })
  | some b => pSBT_go s nid b (s.nodes.length + 1)

/-- The pointless read-only walk in the middle-unlink case of
StrategyAccessBuffer (source lines 420-423): temp starts at curr and
follows prev until NULL.  Returns false when the fuel runs out, which
models divergence of the C loop on a cyclic chain. -/
def walkPrevOk (s : StrategyState) : Nat → Nat → Bool
  | _, 0 => false
  | i, fuel + 1 =>
    match (getNode s i).prev with
    | none => true
    | some p => walkPrevOk s p fuel

/-- The four clearing writes at the end of the delete branch (source lines
384-387): curr->prev = NULL; curr->next = NULL; both timestamps to NIL. -/
def clearNode (nd : BufferNode) : BufferNode :=
  { nd with prev := none, next := none,
            last_accessed := TIMESTAMP_NIL, second_last_accessed := TIMESTAMP_NIL }

/-- The delete branch of StrategyAccessBuffer (source lines 341-391).  In
the source this whole block is guarded by if (false) and therefore dead;
it is transcribed here so that the guard can be modelled faithfully. -/
def strategyAccessDeleteBranch (s : StrategyState) (bid : Nat) : Option StrategyState :=
  let curr := getNode s bid
  if curr.prev = none ∧ curr.next = none then
    match s.stackTop with
    | none =>
      some s -- not in stack: release lock and return
    | some tp =>
      if tp ≠ bid then some s
      else
        match s.stackBottom with
        | none => none -- stackBottom->node_id dereferences NULL
        | some bt =>
          if tp = bid ∧ bt = bid then
            let s1 := { s with stackTop := none, stackBottom := none }
            some (setNode s1 bid (clearNode (getNode s1 bid)))
          else
            some (setNode s bid (clearNode (getNode s bid)))
  else
    match s.stackTop with
    | none => none
    | some tp =>
      if tp = bid then
        let s1 := { s with stackTop := curr.next }
        match curr.next with
        | none => none -- curr->next->prev dereferences NULL
        | some nx =>
          let s2 := setNode s1 nx { getNode s1 nx with prev := none }
          some (setNode s2 bid (clearNode (getNode s2 bid)))
      else
        match s.stackBottom with
        | none => none
        | some bt =>
          if bt = bid then
            let s1 := { s with stackBottom := curr.prev }
            match curr.prev with
            | none => none -- curr->prev->next dereferences NULL
            | some p =>
              let s2 := setNode s1 p { getNode s1 p with next := none }
              some (setNode s2 bid (clearNode (getNode s2 bid)))
          else
            match curr.next, curr.prev with
            | some nx, some p =>
              let s1 := setNode s nx { getNode s nx with prev := curr.prev }
              let s2 := setNode s1 p { getNode s1 p with next := curr.next }
              some (setNode s2 bid (clearNode (getNode s2 bid)))
            | _, _ => none -- curr->next->prev or curr->prev->next dereferences NULL

/-- StrategyAccessBuffer (source lines 326-440).  t is the value returned
by getCurrentTimeNanoseconds during this call.  none models either the
elog(ERROR) on an out-of-range buffer id or a NULL-pointer dereference. -/
def StrategyAccessBuffer (t : Int) (buf_id : Int) (del : Bool)
    (s : StrategyState) : Option StrategyState :=
  if buf_id < 0 ∨ (s.nodes.length : Int) ≤ buf_id then none
  else
    let bid := buf_id.toNat
    if (false : Bool) then
      -- case 4 of the source (line 341): guarded by if (false), never runs
      strategyAccessDeleteBranch s bid
    else
      -- prev_last_accessed = curr->last_accessed;
      -- curr->last_accessed = now; curr->second_last_accessed = prev_last_accessed
      let s := setNode s bid { getNode s bid with
                               last_accessed := t,
                               second_last_accessed := (getNode s bid).last_accessed }
      let curr := getNode s bid
      if curr.prev = none ∧ curr.next = none ∧
          (s.stackTop = none ∨ s.stackTop ≠ some bid) then
        processStackBottomToTop s bid
      else
        match s.stackBottom with
        | none => none -- stackBottom->node_id dereferences NULL
        | some bt =>
          if bt = bid then
            -- stackBottom = curr->prev; curr->prev->next = NULL
            let s1 := { s with stackBottom := (getNode s bid).prev }
            match (getNode s1 bid).prev with
            | none => none -- curr->prev->next dereferences NULL
            | some p =>
              let s2 := setNode s1 p { getNode s1 p with next := none }
              processStackBottomToTop s2 bid
          else
            match s.stackTop with
            | none => none -- stackTop->node_id dereferences NULL
            | some tp =>
              if tp = bid then
                -- stackTop = curr->next; stackTop->prev = NULL
                let s1 := { s with stackTop := (getNode s bid).next }
                match (getNode s1 bid).next with
                | none => none -- stackTop->prev dereferences NULL
                | some nx =>
                  let s2 := setNode s1 nx { getNode s1 nx with prev := none }
                  processStackBottomToTop s2 bid
              else
                if walkPrevOk s bid (s.nodes.length + 1) then
                  let s1 :=
                    match (getNode s bid).next with
                    | none => s
                    | some nx => setNode s nx { getNode s nx with prev := (getNode s bid).prev }
                  let s2 :=
                    match (getNode s1 bid).prev with
                    | none => s1
                    | some p => setNode s1 p { getNode s1 p with next := (getNode s1 bid).next }
                  processStackBottomToTop s2 bid
                else none

/-- StrategyFreeBuffer (source lines 631-651): push the frame on the free
list when not already there, then call StrategyAccessBuffer(id, true). -/
def StrategyFreeBuffer (t : Int) (buf_id : Nat) (s : StrategyState) :
    Option StrategyState :=
  if s.freeNext.getD buf_id 0 = FREENEXT_NOT_IN_LIST then
    let s := { s with freeNext := s.freeNext.set buf_id s.firstFreeBuffer }
    let s := if s.freeNext.getD buf_id 0 < 0
             then { s with lastFreeBuffer := (buf_id : Int) } else s
    let s := { s with firstFreeBuffer := (buf_id : Int) }
    StrategyAccessBuffer t (buf_id : Int) true s
  else some s

/-- BufferAccessStrategyType (external enum; the four kinds named by the
source). -/
inductive BufferAccessStrategyType
  | BAS_NORMAL
  | BAS_BULKREAD
  | BAS_VACUUM
  | BAS_BULKWRITE
deriving Repr, DecidableEq

/-- BufferAccessStrategyData (source lines 104-124).  Buffer numbers are
frame ids shifted by one, with InvalidBuffer = 0 marking an unfilled slot
(the convention of the external headers, relied on by lines 976 and 988). -/
structure BufferAccessStrategyData where
  btype : BufferAccessStrategyType
  nbuffers : Nat
  current : Nat
  buffers : List Nat
deriving Repr, DecidableEq

/-- GetBufferFromRing (source lines 958-1003).  Returns the selected frame
id (or none) together with the advanced ring.  refcount and usagecount are
the externally observed descriptor fields, indexed by frame id. -/
def GetBufferFromRing (refcount usagecount : List Nat)
    (strategy : BufferAccessStrategyData) :
    Option Nat × BufferAccessStrategyData :=
  -- if (++strategy->current >= strategy->nbuffers) strategy->current = 0
  let cur := if strategy.current + 1 ≥ strategy.nbuffers then 0 else strategy.current + 1
  let strategy := { strategy with current := cur }
  let bufnum := strategy.buffers.getD cur 0
  if bufnum = 0 then (none, strategy)
  else
    let b := bufnum - 1
    if refcount.getD b 0 = 0 ∧ usagecount.getD b 0 ≤ 1 then (some b, strategy)
    else (none, strategy)

/-- AddBufferToRing (source lines 1011-1015). -/
def AddBufferToRing (strategy : BufferAccessStrategyData) (buf_id : Nat) :
    BufferAccessStrategyData :=
  { strategy with buffers := strategy.buffers.set strategy.current (buf_id + 1) }

/-- StrategyRejectBuffer (source lines 1061-1080). -/
def StrategyRejectBuffer (strategy : BufferAccessStrategyData) (buf_id : Nat)
    (from_ring : Bool) : Bool × BufferAccessStrategyData :=
  if strategy.btype ≠ BufferAccessStrategyType.BAS_BULKREAD then (false, strategy)
  else if (¬ from_ring) ∨ strategy.buffers.getD strategy.current 0 ≠ buf_id + 1 then
    (false, strategy)
  else
    (true, { strategy with buffers := strategy.buffers.set strategy.current 0 })

/-- Possible ways a call of StrategyGetBuffer can end.  fellThrough models
reaching the closing brace of the non-void function without any return
statement (the walk loop exhausted an empty stack): the C caller receives
an indeterminate value, neither a frame nor the elog error. -/
inductive GetBufferResult
  | frame (id : Nat) (from_ring : Bool)
  | noUnpinnedBuffer
  | fellThrough
deriving Repr, DecidableEq

/-- A completed StrategyGetBuffer call: its result, the shared state it
leaves behind and the (possibly advanced) ring. -/
structure GetOutcome where
  result : GetBufferResult
  state : StrategyState
  ring : Option BufferAccessStrategyData
deriving Repr, DecidableEq

/-- The freelist loop of StrategyGetBuffer (source lines 528-579).  Left:
the loop exited without finding a usable frame; right: a frame was popped,
validated and touched.  Each iteration pops the head unconditionally and
discards it when pinned or in use.  The fuel bounds the iterations; a
terminating C run never exhausts it. -/
def freelistLoop (t : Int) (refcount usagecount : List Nat) :
    StrategyState → Nat → Option (StrategyState ⊕ Nat × StrategyState)
  | _, 0 => none
  | s, fuel + 1 =>
    if s.firstFreeBuffer < 0 then some (Sum.inl s)
    else
      let bid := s.firstFreeBuffer.toNat
      -- firstFreeBuffer = buf->freeNext; buf->freeNext = FREENEXT_NOT_IN_LIST
      let s := { s with firstFreeBuffer := s.freeNext.getD bid 0 }
      let s := { s with freeNext := s.freeNext.set bid FREENEXT_NOT_IN_LIST }
      if refcount.getD bid 0 = 0 ∧ usagecount.getD bid 0 = 0 then
        match StrategyAccessBuffer t (bid : Int) false s with
        | none => none
        | some s1 => some (Sum.inr (bid, s1))
      else freelistLoop t refcount usagecount s fuel

/-- The LRU victim walk of StrategyGetBuffer (source lines 582-626),
starting from stackBottom and following prev links toward the top.  The
walk reads the shared state without modifying it until a victim with zero
refcount is found; that victim has both timestamps set to NIL and is then
passed to StrategyAccessBuffer.  Reaching a pinned node that is the top
raises the No-unpinned-buffer elog; running past a NULL link falls off the
end of the function. -/
def elruWalk (t : Int) (refcount : List Nat) (ring : Option BufferAccessStrategyData)
    (s : StrategyState) : Option Nat → Nat → Option GetOutcome
  | _, 0 => none
  | none, _ + 1 => some { result := GetBufferResult.fellThrough, state := s, ring := ring }
  | some v, fuel + 1 =>
    if refcount.getD v 0 = 0 then
      let s1 := setNode s v { getNode s v with last_accessed := TIMESTAMP_NIL,
                                               second_last_accessed := TIMESTAMP_NIL }
      match StrategyAccessBuffer t (v : Int) false s1 with
      | none => none
      | some s2 => some { result := GetBufferResult.frame v false, state := s2, ring := ring }
    else
      match s.stackTop with
      | none => none -- stackTop->node_id dereferences NULL
      | some tp =>
        if tp = v then
          some { result := GetBufferResult.noUnpinnedBuffer, state := s, ring := ring }
        else elruWalk t refcount ring s (getNode s v).prev fuel

/-- The part of StrategyGetBuffer after the ring path (source lines
491-626): bgwriter wakeup, allocation count, freelist loop, LRU walk. -/
def StrategyGetBufferTail (t : Int) (refcount usagecount : List Nat)
    (ring : Option BufferAccessStrategyData) (s : StrategyState) : Option GetOutcome :=
  let s := if s.bgwprocno ≠ -1 then { s with bgwprocno := -1 } else s
  let s := { s with numBufferAllocs := (s.numBufferAllocs + 1) % 4294967296 }
  match freelistLoop t refcount usagecount s (2 * s.freeNext.length + 4) with
  | none => none
  | some (Sum.inr (bid, s1)) =>
    some { result := GetBufferResult.frame bid false, state := s1, ring := ring }
  | some (Sum.inl s1) => elruWalk t refcount ring s1 s1.stackBottom (s1.nodes.length + 1)

/-- StrategyGetBuffer (source lines 454-626). -/
def StrategyGetBuffer (t : Int) (strategy : Option BufferAccessStrategyData)
    (refcount usagecount : List Nat) (s : StrategyState) : Option GetOutcome :=
  match strategy with
  | some str =>
    match GetBufferFromRing refcount usagecount str with
    | (some bid, str1) =>
      match StrategyAccessBuffer t (bid : Int) false s with
      | none => none
      | some s1 =>
        some { result := GetBufferResult.frame bid true, state := s1, ring := some str1 }
    | (none, str1) => StrategyGetBufferTail t refcount usagecount (some str1) s
  | none => StrategyGetBufferTail t refcount usagecount none s

/-- StrategySyncStart (source lines 664-691): returns the start index, the
pass count, the allocation count, and the state with the allocation count
swapped to zero.  The pass count addition is uint32 arithmetic. -/
def StrategySyncStart (s : StrategyState) : Nat × Nat × Nat × StrategyState :=
  let nvb := s.nextVictimBuffer
  let result := nvb % s.nodes.length
  let passes := (s.completePasses + nvb / s.nodes.length) % 4294967296
  let allocs := s.numBufferAllocs
  (result, passes, allocs, { s with numBufferAllocs := 0 })

/-- StrategyNotifyBgWriter (source lines 701-712). -/
def StrategyNotifyBgWriter (bgwprocno : Int) (s : StrategyState) : StrategyState :=
  { s with bgwprocno := bgwprocno }

/-- ClockSweepTick (source lines 141-198).  Defined for completeness: this
helper would advance nextVictimBuffer, but no function in the source ever
calls it; the CAS retry loop always succeeds at once in a single-threaded
execution.  The counters are uint32. -/
def ClockSweepTick (s : StrategyState) : Nat × StrategyState :=
  let victim := s.nextVictimBuffer
  let s1 := { s with nextVictimBuffer := (victim + 1) % 4294967296 }
  if victim ≥ s.nodes.length then
    let v := victim % s.nodes.length
    if v = 0 then
      (v, { s1 with nextVictimBuffer := ((victim + 1) % 4294967296) % s.nodes.length,
                    completePasses := (s.completePasses + 1) % 4294967296 })
    else (v, s1)
  else (victim, s1)

/-- have_free_buffer (source lines 208-215). -/
def have_free_buffer (s : StrategyState) : Bool :=
  decide (0 ≤ s.firstFreeBuffer)

/-- GetAccessStrategyWithSize (source lines 889-920).  NBuffers is passed
explicitly.  palloc0 zero-fills the object, so current = 0 and every slot
holds InvalidBuffer = 0. -/
def GetAccessStrategyWithSize (NBuffers : Nat) (btype : BufferAccessStrategyType)
    (ring_size_kb : Nat) : Option BufferAccessStrategyData :=
  let ring_buffers := ring_size_kb / (BLCKSZ / 1024)
  if ring_buffers = 0 then none
  else
    let ring_buffers := min (NBuffers / 8) ring_buffers
    some { btype := btype, nbuffers := ring_buffers, current := 0,
           buffers := List.replicate ring_buffers 0 }

/-- GetAccessStrategy (source lines 846-880). -/
def GetAccessStrategy (NBuffers : Nat) (btype : BufferAccessStrategyType) :
    Option BufferAccessStrategyData :=
  match btype with
  | BufferAccessStrategyType.BAS_NORMAL => none
  | BufferAccessStrategyType.BAS_BULKREAD => GetAccessStrategyWithSize NBuffers btype 256
  | BufferAccessStrategyType.BAS_BULKWRITE =>
    GetAccessStrategyWithSize NBuffers btype (16 * 1024)
  | BufferAccessStrategyType.BAS_VACUUM => GetAccessStrategyWithSize NBuffers btype 256

/-- StrategyInitialize (source lines 747-832) restricted to the state it
creates on the init path.  The free-list chain over freeNext is the one
built by the external InitBufferPool, which the source assumes (line 783);
modelled from the spec: every buffer starts on the free list, chained in
index order, with the last entry marked end-of-list by a negative value. -/
def StrategyInitialize (NBuffers : Nat) : StrategyState :=
  { nodes := List.replicate NBuffers defaultNode
    stackTop := none
    stackBottom := none
    firstFreeBuffer := 0
    lastFreeBuffer := (NBuffers : Int) - 1
    freeNext := (List.range NBuffers).map
      (fun i => if i + 1 = NBuffers then -1 else (i : Int) + 1)
    nextVictimBuffer := 0
    completePasses := 0
    numBufferAllocs := 0
    bgwprocno := -1 }

/-! Specification-side definitions.  The following notions come from the
wording of the spec (the ELRU key of section 3 and the testable
properties of section 8); they are used to state the claims and are kept
separate from the code transcription above. -/

/-- Tier of a node per the spec: 0 when prev_accessed is NIL (touched at
most once), else 1. -/
def elruTier (n : BufferNode) : Nat :=
  if n.second_last_accessed = TIMESTAMP_NIL then 0 else 1

/-- Rank of a node per the spec: last_accessed in tier 0, prev_accessed
(second_last_accessed) in tier 1. -/
def elruRank (n : BufferNode) : Int :=
  if n.second_last_accessed = TIMESTAMP_NIL then n.last_accessed
  else n.second_last_accessed

/-- Strict order on ELRU keys (tier-major, rank-minor), per the spec. -/
def elruKeyLtB (a b : BufferNode) : Bool :=
  elruTier a < elruTier b ∨ (elruTier a = elruTier b ∧ elruRank a < elruRank b)

/-- Reflexive order on ELRU keys, per the spec. -/
def elruKeyLeB (a b : BufferNode) : Bool :=
  elruTier a < elruTier b ∨ (elruTier a = elruTier b ∧ elruRank a ≤ elruRank b)

/-- Key equality, per the spec. -/
def elruKeyEqB (a b : BufferNode) : Bool :=
  elruTier a = elruTier b ∧ elruRank a = elruRank b

/-- A node whose timestamps a 32-bit comparator can handle: it is resident
(not both NIL) and each timestamp is NIL or lies in the range of
non-negative values below 2^31. -/
def nodeSaneB (n : BufferNode) : Bool :=
  !isRemovedNode n &&
  (n.last_accessed == TIMESTAMP_NIL ||
    (decide (0 ≤ n.last_accessed) && decide (n.last_accessed < 2147483648))) &&
  (n.second_last_accessed == TIMESTAMP_NIL ||
    (decide (0 ≤ n.second_last_accessed) && decide (n.second_last_accessed < 2147483648)))

/-- Generic link spelling: starting from the optional index o and following
the link selected by f, the visited indices are exactly l, after which the
link is r.  Used with f = prev (bottom to top) and f = next (top to
bottom). -/
def spellsVia (ns : List BufferNode) (f : BufferNode → Option Nat) :
    Option Nat → List Nat → Option Nat → Bool
  | o, [], r => o == r
  | o, i :: rest, r => o == some i && spellsVia ns f (f (ns.getD i defaultNode)) rest r

/-- The prev links starting at o spell the list l (and end at none). -/
def spellsFromB (s : StrategyState) (o : Option Nat) (l : List Nat) : Bool :=
  spellsVia s.nodes (fun nd => nd.prev) o l none

/-- Well-formed stack shape: the prev links from stackBottom spell l
(bottom to top), the next links from stackTop spell l reversed (top to
bottom), all indices are in range and none repeats. -/
def validStackB (s : StrategyState) (l : List Nat) : Bool :=
  spellsVia s.nodes (fun nd => nd.prev) s.stackBottom l none &&
  spellsVia s.nodes (fun nd => nd.next) s.stackTop l.reverse none &&
  l.all (fun i => decide (i < s.nodes.length)) &&
  decide l.Nodup

/-! Concrete states used by the counterexamples and witnesses below. -/

/-- Two frames, both resident: frame 0 on top (touched once at time 5),
frame 1 at the bottom (touched once at time 2); free list empty. -/
def stateTwoResident : StrategyState :=
  { nodes := [ { prev := none, next := some 1,
                 last_accessed := 5, second_last_accessed := TIMESTAMP_NIL },
               { prev := some 0, next := none,
                 last_accessed := 2, second_last_accessed := TIMESTAMP_NIL } ]
    stackTop := some 0
    stackBottom := some 1
    firstFreeBuffer := -1
    lastFreeBuffer := -1
    freeNext := [FREENEXT_NOT_IN_LIST, FREENEXT_NOT_IN_LIST]
    nextVictimBuffer := 0
    completePasses := 0
    numBufferAllocs := 0
    bgwprocno := -1 }

/-- Two frames, nothing resident and nothing free: both frames are held by
other backends (pinned, off both lists). -/
def stateAllPinnedEmpty : StrategyState :=
  { nodes := [defaultNode, defaultNode]
    stackTop := none
    stackBottom := none
    firstFreeBuffer := -1
    lastFreeBuffer := -1
    freeNext := [FREENEXT_NOT_IN_LIST, FREENEXT_NOT_IN_LIST]
    nextVictimBuffer := 0
    completePasses := 0
    numBufferAllocs := 0
    bgwprocno := -1 }

/-- One resident frame only: frame 0 is simultaneously top and bottom of
the stack, with both links none; frame 1 untouched. -/
def stateSoleResident : StrategyState :=
  { nodes := [ { prev := none, next := none,
                 last_accessed := 5, second_last_accessed := TIMESTAMP_NIL },
               defaultNode ]
    stackTop := some 0
    stackBottom := some 0
    firstFreeBuffer := -1
    lastFreeBuffer := -1
    freeNext := [FREENEXT_NOT_IN_LIST, FREENEXT_NOT_IN_LIST]
    nextVictimBuffer := 0
    completePasses := 0
    numBufferAllocs := 0
    bgwprocno := -1 }

/-- One resident frame (id 0) and one unlinked frame (id 1) carrying the
same ELRU key: both are tier 0 with last_accessed 5. -/
def stateEqualKey : StrategyState :=
  { nodes := [ { prev := none, next := none,
                 last_accessed := 5, second_last_accessed := TIMESTAMP_NIL },
               { prev := none, next := none,
                 last_accessed := 5, second_last_accessed := TIMESTAMP_NIL } ]
    stackTop := some 0
    stackBottom := some 0
    firstFreeBuffer := -1
    lastFreeBuffer := -1
    freeNext := [FREENEXT_NOT_IN_LIST, FREENEXT_NOT_IN_LIST]
    nextVictimBuffer := 0
    completePasses := 0
    numBufferAllocs := 0
    bgwprocno := -1 }

/-- The ring used by the counterexample to the allocation-counter claim:
a two-slot BULKREAD ring whose next slot holds buffer number 1, that is
frame 0. -/
def ringTwoSlots : BufferAccessStrategyData :=
  { btype := BufferAccessStrategyType.BAS_BULKREAD
    nbuffers := 2
    current := 0
    buffers := [0, 1] }

/-- The stamping step of StrategyAccessBuffer (source lines 392-394): the
new last_accessed is the clock value, the old last_accessed becomes
second_last_accessed. -/
def touchedNode (t : Int) (n : BufferNode) : BufferNode :=
  { n with last_accessed := t, second_last_accessed := n.last_accessed }

/-- The counters of the state that no code path of the list operations
writes: the legacy clock hand, the allocation counter, the pass counter,
and the pool size. -/
def sameCounters (s1 s2 : StrategyState) : Prop :=
  s2.nextVictimBuffer = s1.nextVictimBuffer ∧
  s2.numBufferAllocs = s1.numBufferAllocs ∧
  s2.completePasses = s1.completePasses ∧
  s2.nodes.length = s1.nodes.length

/-- The outcome of StrategyGetBuffer 5 none [1, 1] [0, 0] on
stateAllPinnedEmpty: the call falls off the end of the function after
counting the allocation. -/
def outcomeFellThrough : GetOutcome :=
  { result := GetBufferResult.fellThrough
    state := { stateAllPinnedEmpty with numBufferAllocs := 1 }
    ring := none }

/-- The outcome of StrategyGetBuffer 7 (some ringTwoSlots) [0, 0] [0, 0] on
stateAllPinnedEmpty: frame 0 served from the ring and touched, allocation
counter untouched. -/
def outcomeRingHit : GetOutcome :=
  { result := GetBufferResult.frame 0 true
    state := { stateAllPinnedEmpty with
               nodes := [ { prev := none, next := none, last_accessed := 7,
                            second_last_accessed := -1 }, defaultNode ]
               stackTop := some 0
               stackBottom := some 0 }
    ring := some { ringTwoSlots with current := 1 } }

/-! Claim theorems.  Each claim of the frozen list gets one theorem (plus,
for failing claims, a counterexample theorem evaluating the transcribed
code at an explicit input). -/

/-- C1: the claim states that after release_frame(id) returns, the frame is
no longer resident in the ELRU list, with NIL timestamps and cleared links.
The code contradicts this: the delete branch of StrategyAccessBuffer is
guarded by if (false), so StrategyFreeBuffer touches the released frame
instead of evicting it.  Concretely, releasing frame 0 of stateTwoResident
at time 10 leaves frame 0 at the head of the free list (firstFreeBuffer =
0) while it is still resident in the ELRU list, freshly stamped with
last_accessed = 10 and prev_accessed = 5 and sitting at stackTop. -/
theorem C1_release_keeps_frame_resident :
    (StrategyFreeBuffer 10 0 stateTwoResident).map
      (fun s => ((getNode s 0).last_accessed, (getNode s 0).second_last_accessed,
                 s.stackTop, s.firstFreeBuffer))
      = some (10, 5, some 0, 0)
    ∧ (10 : Int) ≠ TIMESTAMP_NIL := by decide

/-- C2 counterexample: the claim states that whenever acquire_frame does
not raise NO_UNPINNED_BUFFER it returns a frame, explicitly including the
state where the ELRU list is empty.  With an empty free list and an empty
ELRU list, however, StrategyGetBuffer reaches the end of the function body
without executing any return statement: the call finishes with neither a
frame nor the error. -/
theorem C2_empty_lists_fall_through :
    (StrategyGetBuffer 5 none [1, 1] [0, 0] stateAllPinnedEmpty).map
      (fun o => o.result) = some GetBufferResult.fellThrough := by decide

/-- C3: the claim states that after every public operation the ELRU list is
sorted by the ELRU key.  The code breaks this because compareELRU truncates
the 64-bit timestamp difference to a 32-bit int: starting from an empty
list, touch(0) at time 0 followed by touch(1) at time 3000000000 (a gap of
three seconds in nanoseconds, larger than 2^31) yields the list
bottom-to-top [1, 0], whose adjacent pair has key(bottom) = (0, 3000000000)
strictly greater than key(top) = (0, 0). -/
theorem C3_list_order_violated_by_truncation :
    ((StrategyAccessBuffer 0 0 false stateAllPinnedEmpty).bind
        (fun s => StrategyAccessBuffer 3000000000 1 false s)).map
      (fun s => (spellsFromB s s.stackBottom [1, 0],
                 elruKeyLeB (getNode s 1) (getNode s 0),
                 elruKeyLtB (getNode s 0) (getNode s 1)))
      = some (true, false, true) := by decide

/-- C4: the claim states the round-trip law: release_frame(id), then
acquire_frame returning id from the free list, then touch(id), leaves the
node resident with prev_accessed = NIL (tier 0).  In the code the release
does not evict (dead delete branch) and the free-list path of
StrategyGetBuffer does not clear the timestamps (that code is commented
out), so every step stacks another timestamp: after release at time 10,
acquire at time 12 (which does return frame 0 from the free list) and
touch at time 14, frame 0 has prev_accessed = 12, tier 1, not NIL. -/
theorem C4_roundtrip_leaves_tier1 :
    ((StrategyFreeBuffer 10 0 stateTwoResident).bind
        (fun s1 => (StrategyGetBuffer 12 none [0, 0] [0, 0] s1).bind
          (fun o => (StrategyAccessBuffer 14 0 false o.state).map
            (fun s3 => (o.result, (getNode s3 0).second_last_accessed,
                        elruTier (getNode s3 0))))))
      = some (GetBufferResult.frame 0 false, 12, 1)
    ∧ (12 : Int) ≠ TIMESTAMP_NIL := by decide

/-- C5 counterexample: the claim states that every acquire_frame call that
does not return via the ring increments next_victim by one.  No code path
of StrategyGetBuffer calls ClockSweepTick or otherwise writes
nextVictimBuffer: a completed non-ring allocation from stateTwoResident
leaves it at 0 where the claim requires 1. -/
theorem C5_next_victim_not_incremented :
    stateTwoResident.nextVictimBuffer = 0
    ∧ (StrategyGetBuffer 12 none [0, 0] [0, 0] stateTwoResident).map
        (fun o => (o.result, o.state.nextVictimBuffer))
        = some (GetBufferResult.frame 1 false, 0) := by decide

/-- C6: the claim states that touch(id) of a resident frame never
dereferences a none link, in particular when the frame is the sole resident
node.  In the code, touching the sole resident node takes the unlink path,
matches the stackBottom case, and executes curr->prev->next = NULL with
curr->prev == NULL: a NULL-pointer dereference, modelled as none. -/
theorem C6_sole_resident_touch_crashes :
    StrategyAccessBuffer 10 0 false stateSoleResident = none := by decide

/-- C7 counterexample: the claim states that sync_start reports every
acquire_frame call including those satisfied from a ring.  A ring-satisfied
call returns before the numBufferAllocs increment (the source comments that
strategy-recycled buffers are intentionally not counted), so after one such
call sync_start reports 0 allocations where the claim requires 1. -/
theorem C7_ring_hit_not_counted :
    (StrategyGetBuffer 7 (some ringTwoSlots) [0, 0] [0, 0] stateAllPinnedEmpty).map
      (fun o => (o.result, (StrategySyncStart o.state).2.2.1))
      = some (GetBufferResult.frame 0 true, 0) := by decide

/-- C8 counterexample: the claim states that a fresh ring has cursor = k-1
so that the first advance examines slot 0.  The object is zero-filled by
palloc0: a fresh BULKREAD ring for a pool of 1024 buffers has 32 slots, all
INVALID, and cursor = 0, and the first GetBufferFromRing advances the
cursor to slot 1, not slot 0. -/
theorem C8_fresh_ring_cursor_is_zero :
    (GetAccessStrategy 1024 BufferAccessStrategyType.BAS_BULKREAD).map
      (fun r => (r.nbuffers, r.current, r.buffers.all (fun b => b == 0),
                 (GetBufferFromRing [] [] r).1, (GetBufferFromRing [] [] r).2.current))
      = some (32, 0, true, none, 1)
    ∧ (0 : Nat) ≠ 32 - 1 := by decide

/-- C9 counterexample: the claim states that a node inserted with a key
equal to existing nodes is placed above them.  Touching frame 1 at time 5
while frame 0 is resident with the equal key (tier 0, rank 5) makes the
walk stop at frame 0 with compareELRU = 0, taking the insert-below branch:
the resulting list bottom-to-top is [1, 0], so the new node sits below its
equal, and becomes the new stackBottom rather than the new stackTop. -/
theorem C9_equal_key_inserted_below :
    (StrategyAccessBuffer 5 1 false stateSoleResident).map
      (fun s => (spellsFromB s s.stackBottom [1, 0], s.stackBottom, s.stackTop,
                 elruKeyEqB (getNode s 1) (getNode s 0)))
      = some (true, some 1, some 0, true) := by decide

/-- C10: the claim states that for same-tier resident nodes the sign of
compareELRU matches the order of the rank timestamps for arbitrary 64-bit
nanosecond values.  The return type of compareELRU is int, so the long long
difference is truncated: with a.last_accessed = 3000000000 and
b.last_accessed = 0 (both tier 0) the difference 3000000000 wraps to the
negative value -1294967296, and the comparator reports a below b although
the rank of a is strictly larger. -/
theorem C10_comparator_sign_corrupted :
    compareELRU { prev := none, next := none, last_accessed := 3000000000,
                  second_last_accessed := TIMESTAMP_NIL }
                { prev := none, next := none, last_accessed := 0,
                  second_last_accessed := TIMESTAMP_NIL } = -1294967296
    ∧ (-1294967296 : Int) < 0
    ∧ elruRank { prev := none, next := none, last_accessed := 3000000000,
                 second_last_accessed := TIMESTAMP_NIL }
        > elruRank { prev := none, next := none, last_accessed := 0,
                     second_last_accessed := TIMESTAMP_NIL } := by decide

/-! Helper lemmas: the list operations never write the statistics counters
(nextVictimBuffer, numBufferAllocs, completePasses) nor change the pool
size.  These support the amended forms of the statistics claims. -/

theorem sameCounters_refl (s : StrategyState) : sameCounters s s := by
  simp [sameCounters]

theorem sameCounters_setNode (s : StrategyState) (i : Nat) (nd : BufferNode) :
    sameCounters s (setNode s i nd) := by
  simp [sameCounters, setNode]

theorem sameCounters_trans {s1 s2 s3 : StrategyState}
    (h1 : sameCounters s1 s2) (h2 : sameCounters s2 s3) : sameCounters s1 s3 := by
  obtain ⟨a1, b1, c1, d1⟩ := h1
  obtain ⟨a2, b2, c2, d2⟩ := h2
  exact ⟨a2.trans a1, b2.trans b1, c2.trans c1, d2.trans d1⟩

theorem pSBT_go_counters (s : StrategyState) (nid : Nat) :
    ∀ (fuel : Nat) (cur : Nat) (s2 : StrategyState),
      pSBT_go s nid cur fuel = some s2 → sameCounters s s2 := by
  intro fuel
  induction fuel with
  | zero => intro cur s2 h; simp [pSBT_go] at h
  | succ n ih =>
    intro cur s2 h
    unfold pSBT_go at h
    split at h
    · exact absurd h (by simp)
    · split at h
      · split at h
        · cases h; simp [sameCounters, setNode]
        · split at h
          · cases h; simp [sameCounters, setNode]
          · cases h; simp [sameCounters, setNode]
      · split at h
        · split at h
          · cases h; simp [sameCounters, setNode]
          · cases h; simp [sameCounters, setNode]
        · split at h
          · cases h; exact sameCounters_refl s
          · exact ih _ _ h

theorem processStackBottomToTop_counters (s : StrategyState) (nid : Nat)
    (s2 : StrategyState) (h : processStackBottomToTop s nid = some s2) :
    sameCounters s s2 := by
  unfold processStackBottomToTop at h
  split at h
  · cases h; simp [sameCounters, setNode]
  · exact pSBT_go_counters s nid _ _ _ h


theorem strategyAccessDeleteBranch_counters (s : StrategyState) (bid : Nat)
    (s2 : StrategyState) (h : strategyAccessDeleteBranch s bid = some s2) :
    sameCounters s s2 := by
  simp only [strategyAccessDeleteBranch] at h
  repeat' split at h
  all_goals first
    | (injection h with h2; subst h2; simp [sameCounters, setNode])
    | simp at h


theorem StrategyAccessBuffer_counters (t : Int) (buf_id : Int) (del : Bool)
    (s : StrategyState) (s2 : StrategyState)
    (h : StrategyAccessBuffer t buf_id del s = some s2) : sameCounters s s2 := by
  simp only [StrategyAccessBuffer] at h
  repeat' split at h
  all_goals first
    | (have hs := processStackBottomToTop_counters _ _ _ h
       refine sameCounters_trans ?_ hs
       simp [sameCounters, setNode])
    | exact strategyAccessDeleteBranch_counters _ _ _ h
    | simp at h


theorem freelistLoop_counters (t : Int) (refcount usagecount : List Nat) :
    ∀ (fuel : Nat) (s : StrategyState) (r : StrategyState ⊕ Nat × StrategyState),
      freelistLoop t refcount usagecount s fuel = some r →
      sameCounters s (Sum.elim id Prod.snd r) := by
  intro fuel
  induction fuel with
  | zero => intro s r h; simp [freelistLoop] at h
  | succ n ih =>
    intro s r h
    simp only [freelistLoop] at h
    split at h
    · cases h; exact sameCounters_refl s
    · split at h
      · split at h
        · exact absurd h (by simp)
        · cases h
          refine sameCounters_trans ?_ (StrategyAccessBuffer_counters _ _ _ _ _ (by assumption))
          simp [sameCounters]
      · refine sameCounters_trans ?_ (ih _ _ h)
        simp [sameCounters]

theorem elruWalk_outcome (t : Int) (refcount : List Nat)
    (ring : Option BufferAccessStrategyData) (s : StrategyState) :
    ∀ (fuel : Nat) (cur : Option Nat) (o : GetOutcome),
      elruWalk t refcount ring s cur fuel = some o →
      sameCounters s o.state ∧ ∀ id, o.result ≠ GetBufferResult.frame id true := by
  intro fuel
  induction fuel with
  | zero => intro cur o h; simp [elruWalk] at h
  | succ n ih =>
    intro cur o h
    match cur with
    | none =>
      simp only [elruWalk] at h
      cases h
      exact ⟨sameCounters_refl s, by simp⟩
    | some v =>
      simp only [elruWalk] at h
      split at h
      · split at h
        · exact absurd h (by simp)
        · cases h
          constructor
          · exact sameCounters_trans (sameCounters_setNode ..)
              (StrategyAccessBuffer_counters _ _ _ _ _ (by assumption))
          · simp
      · split at h
        · exact absurd h (by simp)
        · split at h
          · cases h; exact ⟨sameCounters_refl s, by simp⟩
          · exact ih _ _ h

theorem StrategyGetBufferTail_aux (t : Int) (refcount usagecount : List Nat)
    (ring : Option BufferAccessStrategyData) (sm : StrategyState) (o : GetOutcome)
    (h : (match freelistLoop t refcount usagecount sm (2 * sm.freeNext.length + 4) with
          | none => none
          | some (Sum.inr (bid, s1)) =>
            some { result := GetBufferResult.frame bid false, state := s1, ring := ring }
          | some (Sum.inl s1) =>
            elruWalk t refcount ring s1 s1.stackBottom (s1.nodes.length + 1)) = some o) :
    sameCounters sm o.state ∧ ∀ id, o.result ≠ GetBufferResult.frame id true := by
  split at h
  · exact absurd h (by simp)
  · next bid s1 heq =>
    cases h
    have hc := freelistLoop_counters t refcount usagecount _ _ _ heq
    simp only [Sum.elim] at hc
    exact ⟨hc, by simp⟩
  · next s1 heq =>
    have hc := freelistLoop_counters t refcount usagecount _ _ _ heq
    simp only [Sum.elim, id] at hc
    have hw := elruWalk_outcome t refcount ring s1 _ _ _ h
    exact ⟨sameCounters_trans hc hw.1, hw.2⟩

theorem StrategyGetBufferTail_spec (t : Int) (refcount usagecount : List Nat)
    (ring : Option BufferAccessStrategyData) (s : StrategyState) (o : GetOutcome)
    (h : StrategyGetBufferTail t refcount usagecount ring s = some o) :
    o.state.nextVictimBuffer = s.nextVictimBuffer ∧
    o.state.completePasses = s.completePasses ∧
    o.state.nodes.length = s.nodes.length ∧
    o.state.numBufferAllocs = (s.numBufferAllocs + 1) % 4294967296 ∧
    ∀ id, o.result ≠ GetBufferResult.frame id true := by
  have haux := StrategyGetBufferTail_aux t refcount usagecount ring
    { (if s.bgwprocno ≠ -1 then { s with bgwprocno := -1 } else s) with
      numBufferAllocs :=
        ((if s.bgwprocno ≠ -1 then { s with bgwprocno := -1 } else s).numBufferAllocs + 1)
          % 4294967296 } o h
  obtain ⟨⟨a, b, c, d⟩, hr⟩ := haux
  refine ⟨?_, ?_, ?_, ?_, hr⟩
  · rw [a]; show (if s.bgwprocno ≠ -1 then _ else s).nextVictimBuffer = _
    split <;> rfl
  · rw [c]; show (if s.bgwprocno ≠ -1 then _ else s).completePasses = _
    split <;> rfl
  · rw [d]; show (if s.bgwprocno ≠ -1 then _ else s).nodes.length = _
    split <;> rfl
  · rw [b]
    show ((if s.bgwprocno ≠ -1 then _ else s).numBufferAllocs + 1) % 4294967296 = _
    congr 2
    split <;> rfl

/-- C5 (amended): in the source the legacy clock hand nextVictimBuffer is
never incremented by StrategyGetBuffer at all: the ClockSweepTick helper
that would do it is never called, so every completed acquire_frame call
leaves next_victim unchanged, and after the call sync_start still returns
start_index = next_victim mod N and pass count complete_passes +
next_victim / N (uint32 arithmetic) computed from the unchanged values.
The original claim, refuted by C5_next_victim_not_incremented, said the
pointer advances by one per non-ring allocation. -/
theorem C5_amended_no_advance (t : Int) (strategy : Option BufferAccessStrategyData)
    (refcount usagecount : List Nat) (s : StrategyState) (o : GetOutcome)
    (h : StrategyGetBuffer t strategy refcount usagecount s = some o) :
    o.state.nextVictimBuffer = s.nextVictimBuffer
    ∧ (StrategySyncStart o.state).1 = s.nextVictimBuffer % s.nodes.length
    ∧ (StrategySyncStart o.state).2.1
        = (s.completePasses + s.nextVictimBuffer / s.nodes.length) % 4294967296 := by
  have key : o.state.nextVictimBuffer = s.nextVictimBuffer ∧
      o.state.completePasses = s.completePasses ∧
      o.state.nodes.length = s.nodes.length := by
    simp only [StrategyGetBuffer] at h
    split at h
    · split at h
      · split at h
        · exact absurd h (by simp)
        · cases h
          have hc := StrategyAccessBuffer_counters _ _ _ _ _ (by assumption)
          exact ⟨hc.1, hc.2.2.1, hc.2.2.2⟩
      · have hs := StrategyGetBufferTail_spec _ _ _ _ _ _ h
        exact ⟨hs.1, hs.2.1, hs.2.2.1⟩
    · have hs := StrategyGetBufferTail_spec _ _ _ _ _ _ h
      exact ⟨hs.1, hs.2.1, hs.2.2.1⟩
  refine ⟨key.1, ?_, ?_⟩
  · simp [StrategySyncStart, key.1, key.2.2]
  · simp [StrategySyncStart, key.1, key.2.1, key.2.2]

/-- C5 witness: the amended theorem applied to a concrete completed call
(no ring, both frames pinned, everything empty), whose hypothesis is
discharged by evaluation. -/
theorem C5_amended_no_advance_witness :
    StrategyGetBuffer 5 none [1, 1] [0, 0] stateAllPinnedEmpty = some outcomeFellThrough
    ∧ (outcomeFellThrough.state.nextVictimBuffer = stateAllPinnedEmpty.nextVictimBuffer
       ∧ (StrategySyncStart outcomeFellThrough.state).1
          = stateAllPinnedEmpty.nextVictimBuffer % stateAllPinnedEmpty.nodes.length
       ∧ (StrategySyncStart outcomeFellThrough.state).2.1
          = (stateAllPinnedEmpty.completePasses
             + stateAllPinnedEmpty.nextVictimBuffer / stateAllPinnedEmpty.nodes.length)
            % 4294967296) :=
  ⟨by decide,
   C5_amended_no_advance 5 none [1, 1] [0, 0] stateAllPinnedEmpty outcomeFellThrough
     (by decide)⟩

/-- C7 (amended): sync_start reports exactly the acquire_frame calls that
did not return via the ring path.  A completed call returning a ring
buffer (from_ring = true) leaves the allocation counter unchanged (the
source deliberately does not count strategy-recycled buffers); every other
completed call increments it by exactly one (uint32); and sync_start
returns the counter and atomically resets it to zero.  The original claim,
refuted by C7_ring_hit_not_counted, said ring-satisfied calls are counted
too. -/
theorem C7_amended_alloc_counter (t : Int) (strategy : Option BufferAccessStrategyData)
    (refcount usagecount : List Nat) (s : StrategyState) (o : GetOutcome)
    (h : StrategyGetBuffer t strategy refcount usagecount s = some o) :
    ((∃ id, o.result = GetBufferResult.frame id true) →
      o.state.numBufferAllocs = s.numBufferAllocs)
    ∧ ((∀ id, o.result ≠ GetBufferResult.frame id true) →
      o.state.numBufferAllocs = (s.numBufferAllocs + 1) % 4294967296)
    ∧ (StrategySyncStart o.state).2.2.1 = o.state.numBufferAllocs
    ∧ ((StrategySyncStart o.state).2.2.2).numBufferAllocs = 0 := by
  refine ⟨?_, ?_, by simp [StrategySyncStart], by simp [StrategySyncStart]⟩
  all_goals
    simp only [StrategyGetBuffer] at h
    split at h
  · split at h
    · split at h
      · exact absurd h (by simp)
      · cases h
        intro _
        exact (StrategyAccessBuffer_counters _ _ _ _ _ (by assumption)).2.1
    · intro hex
      exact absurd hex (by
        have hs := StrategyGetBufferTail_spec _ _ _ _ _ _ h
        simp only [not_exists]
        exact fun id => hs.2.2.2.2 id)
  · intro hex
    exact absurd hex (by
      have hs := StrategyGetBufferTail_spec _ _ _ _ _ _ h
      simp only [not_exists]
      exact fun id => hs.2.2.2.2 id)
  · split at h
    · split at h
      · exact absurd h (by simp)
      · cases h
        intro hall
        exact absurd rfl (hall _)
    · intro _
      exact (StrategyGetBufferTail_spec _ _ _ _ _ _ h).2.2.2.1
  · intro _
    exact (StrategyGetBufferTail_spec _ _ _ _ _ _ h).2.2.2.1

/-- C7 witness: the amended theorem applied to a concrete ring-satisfied
call, with the hypothesis discharged by evaluation. -/
theorem C7_amended_alloc_counter_witness :
    StrategyGetBuffer 7 (some ringTwoSlots) [0, 0] [0, 0] stateAllPinnedEmpty
      = some outcomeRingHit
    ∧ ((∃ id, outcomeRingHit.result = GetBufferResult.frame id true) →
        outcomeRingHit.state.numBufferAllocs = stateAllPinnedEmpty.numBufferAllocs) :=
  ⟨by decide,
   (C7_amended_alloc_counter 7 (some ringTwoSlots) [0, 0] [0, 0] stateAllPinnedEmpty
      outcomeRingHit (by decide)).1⟩

theorem getD_replicate_zero (n i : Nat) : (List.replicate n (0 : Nat)).getD i 0 = 0 := by
  induction n generalizing i with
  | zero => simp [List.getD]
  | succ m ih =>
    match i with
    | 0 => simp [List.replicate, List.getD]
    | j + 1 => simpa [List.replicate, List.getD] using ih j

/-- C8 (amended): for every non-NORMAL strategy kind and a pool of at least
16 buffers (the source asserts NBuffers is never smaller), new(kind)
returns a ring with all k slots INVALID but with cursor = 0, not k-1: the
object is zero-filled by palloc0.  Consequently the first advance_and_peek
(GetBufferFromRing) examines slot 1 mod k, not slot 0, and on the fresh
all-INVALID ring it returns none with the cursor left at 1.  NORMAL still
yields no ring.  The original claim (cursor = k-1, first advance lands on
slot 0) is refuted by C8_fresh_ring_cursor_is_zero. -/
theorem C8_amended_ring_initial_state (NBuffers : Nat) (btype : BufferAccessStrategyType)
    (hb : btype ≠ BufferAccessStrategyType.BAS_NORMAL) (hn : 16 ≤ NBuffers) :
    ∃ r, GetAccessStrategy NBuffers btype = some r
      ∧ r.buffers = List.replicate r.nbuffers 0
      ∧ r.current = 0
      ∧ 2 ≤ r.nbuffers
      ∧ ∀ refcount usagecount : List Nat,
          (GetBufferFromRing refcount usagecount r).1 = none
          ∧ (GetBufferFromRing refcount usagecount r).2.current = 1 := by
  have hdiv : 2 ≤ NBuffers / 8 := by omega
  have key : ∀ kb : Nat, 2 ≤ kb / (BLCKSZ / 1024) →
      ∃ r, GetAccessStrategyWithSize NBuffers btype kb = some r
        ∧ r.buffers = List.replicate r.nbuffers 0
        ∧ r.current = 0
        ∧ 2 ≤ r.nbuffers
        ∧ ∀ refcount usagecount : List Nat,
            (GetBufferFromRing refcount usagecount r).1 = none
            ∧ (GetBufferFromRing refcount usagecount r).2.current = 1 := by
    intro kb hkb
    have h2 : 2 ≤ min (NBuffers / 8) (kb / (BLCKSZ / 1024)) := le_min hdiv hkb
    refine ⟨{ btype := btype, nbuffers := min (NBuffers / 8) (kb / (BLCKSZ / 1024)),
              current := 0,
              buffers := List.replicate (min (NBuffers / 8) (kb / (BLCKSZ / 1024))) 0 },
            ?_, rfl, rfl, h2, ?_⟩
    · unfold GetAccessStrategyWithSize
      rw [if_neg (by omega)]
    · intro rc us
      have h1 : ¬ (0 + 1 ≥ min (NBuffers / 8) (kb / (BLCKSZ / 1024))) :=
        fun hc => absurd (le_trans h2 hc) (by decide)
      have heq : GetBufferFromRing rc us
          { btype := btype, nbuffers := min (NBuffers / 8) (kb / (BLCKSZ / 1024)),
            current := 0,
            buffers := List.replicate (min (NBuffers / 8) (kb / (BLCKSZ / 1024))) 0 }
          = (none,
             { btype := btype, nbuffers := min (NBuffers / 8) (kb / (BLCKSZ / 1024)),
               current := 0 + 1,
               buffers := List.replicate (min (NBuffers / 8) (kb / (BLCKSZ / 1024))) 0 }) := by
        simp only [GetBufferFromRing]
        rw [if_neg h1]
        simp only [getD_replicate_zero]
        simp
      exact ⟨by rw [heq], by rw [heq]⟩
  match btype, hb with
  | BufferAccessStrategyType.BAS_BULKREAD, _ => exact key 256 (by decide)
  | BufferAccessStrategyType.BAS_BULKWRITE, _ => exact key (16 * 1024) (by decide)
  | BufferAccessStrategyType.BAS_VACUUM, _ => exact key 256 (by decide)

/-- C8 witness: the amended theorem applied to a BULKREAD ring over a pool
of 1024 buffers. -/
theorem C8_amended_ring_initial_state_witness :
    BufferAccessStrategyType.BAS_BULKREAD ≠ BufferAccessStrategyType.BAS_NORMAL
    ∧ 16 ≤ 1024
    ∧ ∃ r, GetAccessStrategy 1024 BufferAccessStrategyType.BAS_BULKREAD = some r
      ∧ r.buffers = List.replicate r.nbuffers 0
      ∧ r.current = 0
      ∧ 2 ≤ r.nbuffers
      ∧ ∀ refcount usagecount : List Nat,
          (GetBufferFromRing refcount usagecount r).1 = none
          ∧ (GetBufferFromRing refcount usagecount r).2.current = 1 :=
  ⟨by decide, by decide,
   C8_amended_ring_initial_state 1024 BufferAccessStrategyType.BAS_BULKREAD
     (by decide) (by decide)⟩

/-! Helper lemmas about node reads and writes and about link spellings,
used by the amended list-structure claims. -/

theorem getNode_setNode_ne (s : StrategyState) (j : Nat) (nd : BufferNode)
    (i : Nat) (h : i ≠ j) : getNode (setNode s j nd) i = getNode s i := by
  simp [getNode, setNode, List.getD_eq_getElem?_getD, List.getElem?_set_ne (Ne.symm h)]

theorem getNode_setNode_self (s : StrategyState) (j : Nat) (nd : BufferNode)
    (h : j < s.nodes.length) : getNode (setNode s j nd) j = nd := by
  simp [getNode, setNode, List.getD_eq_getElem?_getD, List.getElem?_set_self h]

theorem setNode_stackTop (s : StrategyState) (j : Nat) (nd : BufferNode) :
    (setNode s j nd).stackTop = s.stackTop := rfl

theorem setNode_stackBottom (s : StrategyState) (j : Nat) (nd : BufferNode) :
    (setNode s j nd).stackBottom = s.stackBottom := rfl


theorem nodes_setNode (s : StrategyState) (j : Nat) (nd : BufferNode) :
    (setNode s j nd).nodes = s.nodes.set j nd := rfl

theorem getD_set_node_self (ns : List BufferNode) (j : Nat) (nd : BufferNode)
    (h : j < ns.length) : (ns.set j nd).getD j defaultNode = nd := by
  simp [List.getD_eq_getElem?_getD, List.getElem?_set_self h]

theorem getD_set_node_ne (ns : List BufferNode) (j : Nat) (nd : BufferNode)
    (i : Nat) (h : i ≠ j) : (ns.set j nd).getD i defaultNode = ns.getD i defaultNode := by
  simp [List.getD_eq_getElem?_getD, List.getElem?_set_ne (Ne.symm h)]

theorem spellsVia_append (ns : List BufferNode) (f : BufferNode → Option Nat)
    (l1 : List Nat) :
    ∀ (o r : Option Nat) (l2 : List Nat),
      spellsVia ns f o (l1 ++ l2) r = true ↔
      ∃ m, spellsVia ns f o l1 m = true ∧ spellsVia ns f m l2 r = true := by
  induction l1 with
  | nil =>
    intro o r l2
    constructor
    · intro h
      refine ⟨o, ?_, h⟩
      simp [spellsVia]
    · rintro ⟨m, hm, h2⟩
      have hom : o = m := by simpa [spellsVia] using hm
      rw [List.nil_append, hom]
      exact h2
  | cons i l1 ih =>
    intro o r l2
    constructor
    · intro h
      rw [List.cons_append] at h
      simp only [spellsVia, Bool.and_eq_true] at h
      obtain ⟨ho, hrest⟩ := h
      obtain ⟨m, h1, h2⟩ := (ih _ _ _).mp hrest
      refine ⟨m, ?_, h2⟩
      simp only [spellsVia, Bool.and_eq_true]
      exact ⟨ho, h1⟩
    · rintro ⟨m, h1, h2⟩
      simp only [spellsVia, Bool.and_eq_true] at h1
      rw [List.cons_append]
      simp only [spellsVia, Bool.and_eq_true]
      exact ⟨h1.1, (ih _ _ _).mpr ⟨m, h1.2, h2⟩⟩

theorem spellsVia_congr (ns1 ns2 : List BufferNode) (f : BufferNode → Option Nat)
    (l : List Nat)
    (h : ∀ i ∈ l, f (ns2.getD i defaultNode) = f (ns1.getD i defaultNode)) :
    ∀ (o r : Option Nat), spellsVia ns2 f o l r = spellsVia ns1 f o l r := by
  induction l with
  | nil => intro o r; rfl
  | cons i l ih =>
    intro o r
    simp only [spellsVia]
    rw [h i (by simp), ih (fun j hj => h j (by simp [hj]))]

theorem spellsVia_cons_iff (ns : List BufferNode) (f : BufferNode → Option Nat)
    (o : Option Nat) (i : Nat) (rest : List Nat) (r : Option Nat) :
    spellsVia ns f o (i :: rest) r = true ↔
    o = some i ∧ spellsVia ns f (f (ns.getD i defaultNode)) rest r = true := by
  simp [spellsVia]

theorem spellsVia_head (ns : List BufferNode) (f : BufferNode → Option Nat)
    (o : Option Nat) (l : List Nat) (r : Option Nat) (hl : l ≠ [])
    (h : spellsVia ns f o l r = true) :
    o = l.head? ∧ spellsVia ns f l.head? l r = true := by
  cases l with
  | nil => exact absurd rfl hl
  | cons i rest =>
    obtain ⟨h1, h2⟩ := (spellsVia_cons_iff ..).mp h
    exact ⟨by simp [h1], (spellsVia_cons_iff ..).mpr ⟨by simp, h2⟩⟩

theorem validStackB_parts {s : StrategyState} {l : List Nat}
    (h : validStackB s l = true) :
    spellsVia s.nodes (fun nd => nd.prev) s.stackBottom l none = true ∧
    spellsVia s.nodes (fun nd => nd.next) s.stackTop l.reverse none = true ∧
    (∀ i ∈ l, i < s.nodes.length) ∧ l.Nodup := by
  simp only [validStackB, Bool.and_eq_true, List.all_eq_true, decide_eq_true_eq] at h
  exact ⟨h.1.1.1, h.1.1.2, fun i hi => h.1.2 i hi, h.2⟩

theorem nodup_bounded_length_le (l : List Nat) (n : Nat)
    (hd : l.Nodup) (hb : ∀ i ∈ l, i < n) : l.length ≤ n := by
  classical
  have h1 : l.toFinset ⊆ Finset.range n := by
    intro x hx
    simp only [List.mem_toFinset] at hx
    simp [hb x hx]
  have h2 := Finset.card_le_card h1
  simpa [List.toFinset_card_of_nodup hd] using h2

theorem setNode_length (s : StrategyState) (j : Nat) (nd : BufferNode) :
    (setNode s j nd).nodes.length = s.nodes.length := by
  simp [setNode]

/-- Overwriting only the timestamps of one in-range node does not change
the stack shape. -/
theorem validStackB_setNode_ts (s : StrategyState) (v : Nat) (l : List Nat)
    (hv : v < s.nodes.length) (nd : BufferNode)
    (hprev : nd.prev = (getNode s v).prev) (hnext : nd.next = (getNode s v).next) :
    validStackB (setNode s v nd) l = validStackB s l := by
  have hpn : ∀ i ∈ l, (fun x => x.prev) ((s.nodes.set v nd).getD i defaultNode)
      = (fun x => x.prev) (s.nodes.getD i defaultNode) := by
    intro i _
    by_cases hiv : i = v
    · subst hiv
      rw [getD_set_node_self _ i nd hv]
      exact hprev
    · rw [getD_set_node_ne _ v nd i hiv]
  have hnn : ∀ i ∈ l.reverse, (fun x => x.next) ((s.nodes.set v nd).getD i defaultNode)
      = (fun x => x.next) (s.nodes.getD i defaultNode) := by
    intro i _
    by_cases hiv : i = v
    · subst hiv
      rw [getD_set_node_self _ i nd hv]
      exact hnext
    · rw [getD_set_node_ne _ v nd i hiv]
  unfold validStackB
  rw [nodes_setNode,
      spellsVia_congr s.nodes _ (fun x => x.prev) l hpn,
      spellsVia_congr s.nodes _ (fun x => x.next) l.reverse hnn,
      setNode_stackTop, setNode_stackBottom]
  simp [List.length_set]

/-- If the prev chain from cur is acyclic and ends in none, and the top
pointer is set, processStackBottomToTop terminates with some state. -/
theorem pSBT_go_some (s : StrategyState) (nid tp : Nat) (htp : s.stackTop = some tp) :
    ∀ (c : List Nat) (cur fuel : Nat),
      spellsVia s.nodes (fun nd => nd.prev) (some cur) (cur :: c) none = true →
      c.length + 1 < fuel →
      ∃ s2, pSBT_go s nid cur fuel = some s2 := by
  intro c
  induction c with
  | nil =>
    intro cur fuel hsp hf
    obtain ⟨-, hsp2⟩ := (spellsVia_cons_iff ..).mp hsp
    have hprev : (getNode s cur).prev = none := by
      have h3 := hsp2
      simp only [spellsVia] at h3
      exact beq_iff_eq.mp h3
    cases fuel with
    | zero => omega
    | succ f =>
      simp only [pSBT_go, htp]
      split
      · split
        · exact ⟨_, rfl⟩
        · split
          · exact ⟨_, rfl⟩
          · exact ⟨_, rfl⟩
      · split
        · split
          · exact ⟨_, rfl⟩
          · exact ⟨_, rfl⟩
        · rw [hprev]
          exact ⟨_, rfl⟩
  | cons j c ih =>
    intro cur fuel hsp hf
    obtain ⟨-, hsp2⟩ := (spellsVia_cons_iff ..).mp hsp
    obtain ⟨h1, h2⟩ := (spellsVia_cons_iff ..).mp hsp2
    have hj : (getNode s cur).prev = some j := h1
    have hsp3 : spellsVia s.nodes (fun nd => nd.prev) (some j) (j :: c) none = true :=
      (spellsVia_cons_iff ..).mpr ⟨rfl, h2⟩
    cases fuel with
    | zero => omega
    | succ f =>
      simp only [pSBT_go, htp]
      split
      · split
        · exact ⟨_, rfl⟩
        · split
          · exact ⟨_, rfl⟩
          · exact ⟨_, rfl⟩
      · split
        · split
          · exact ⟨_, rfl⟩
          · exact ⟨_, rfl⟩
        · rw [hj]
          exact ih j f hsp3 (by simp at hf ⊢; omega)

/-- The read-only prev walk terminates on an acyclic chain. -/
theorem walkPrevOk_of_spells (s : StrategyState) :
    ∀ (c : List Nat) (i fuel : Nat),
      spellsVia s.nodes (fun nd => nd.prev) (some i) (i :: c) none = true →
      c.length + 1 < fuel →
      walkPrevOk s i fuel = true := by
  intro c
  induction c with
  | nil =>
    intro i fuel hsp hf
    obtain ⟨-, hsp2⟩ := (spellsVia_cons_iff ..).mp hsp
    have hprev : (getNode s i).prev = none := by
      have h3 := hsp2
      simp only [spellsVia] at h3
      exact beq_iff_eq.mp h3
    cases fuel with
    | zero => omega
    | succ f =>
      simp only [walkPrevOk, hprev]
  | cons j c ih =>
    intro i fuel hsp hf
    obtain ⟨-, hsp2⟩ := (spellsVia_cons_iff ..).mp hsp
    obtain ⟨h1, h2⟩ := (spellsVia_cons_iff ..).mp hsp2
    have hj : (getNode s i).prev = some j := h1
    have hsp3 : spellsVia s.nodes (fun nd => nd.prev) (some j) (j :: c) none = true :=
      (spellsVia_cons_iff ..).mpr ⟨rfl, h2⟩
    cases fuel with
    | zero => omega
    | succ f =>
      simp only [walkPrevOk, hj]
      exact ih j f hsp3 (by simp at hf ⊢; omega)

theorem getLast?_cons_of_ne (a : Nat) (l : List Nat) (h : l ≠ []) :
    (a :: l).getLast? = l.getLast? := by
  cases l with
  | nil => exact absurd rfl h
  | cons b m => simp

/-- When every node of the chain above the walk position is pinned, the
walk reaches the top and raises the No-unpinned-buffer error. -/
theorem elruWalk_all_pinned (t : Int) (refcount : List Nat)
    (ring : Option BufferAccessStrategyData) (s : StrategyState) (tp : Nat)
    (htp : s.stackTop = some tp) :
    ∀ (c : List Nat) (v fuel : Nat),
      spellsVia s.nodes (fun nd => nd.prev) (some v) (v :: c) none = true →
      (v :: c).getLast? = some tp →
      (∀ u ∈ v :: c, refcount.getD u 0 ≠ 0) →
      (v :: c).Nodup →
      c.length + 1 < fuel →
      elruWalk t refcount ring s (some v) fuel
        = some { result := GetBufferResult.noUnpinnedBuffer, state := s, ring := ring } := by
  intro c
  induction c with
  | nil =>
    intro v fuel hsp hlast hpin _ hf
    have hvtp : v = tp := by simpa using hlast
    cases fuel with
    | zero => omega
    | succ f =>
      simp only [elruWalk, htp]
      rw [if_neg (hpin v (by simp)), if_pos hvtp.symm]
  | cons j c ih =>
    intro v fuel hsp hlast hpin hnd hf
    obtain ⟨-, hsp2⟩ := (spellsVia_cons_iff ..).mp hsp
    obtain ⟨h1, h2⟩ := (spellsVia_cons_iff ..).mp hsp2
    have hj : (getNode s v).prev = some j := h1
    have hsp3 : spellsVia s.nodes (fun nd => nd.prev) (some j) (j :: c) none = true :=
      (spellsVia_cons_iff ..).mpr ⟨rfl, h2⟩
    have htpmem : tp ∈ j :: c := by
      have hl : (j :: c).getLast? = some tp := by
        rw [← hlast]
        rfl
      have hne : (j :: c) ≠ [] := by simp
      rw [List.getLast?_eq_getLast _ hne] at hl
      injection hl with hl2
      rw [← hl2]
      exact List.getLast_mem hne
    have hvtp : v ≠ tp := by
      intro hcon
      subst hcon
      exact (List.nodup_cons.mp hnd).1 htpmem
    cases fuel with
    | zero => omega
    | succ f =>
      simp only [elruWalk, htp]
      rw [if_neg (hpin v (by simp)), if_neg (fun hc => hvtp hc.symm), hj]
      exact ih j f hsp3 (by rw [← hlast]; rfl)
        (fun u hu => hpin u (by simp [hu]))
        (List.nodup_cons.mp hnd).2 (by simp at hf ⊢; omega)

/-- The walk skips pinned nodes below the top and reduces to the victim
branch at the first unpinned node. -/
theorem elruWalk_first_unpinned (t : Int) (refcount : List Nat)
    (ring : Option BufferAccessStrategyData) (s : StrategyState) (tp : Nat)
    (htp : s.stackTop = some tp) :
    ∀ (cpre : List Nat) (u : Nat) (crest : List Nat) (fuel : Nat),
      spellsVia s.nodes (fun nd => nd.prev) ((cpre ++ u :: crest).head?)
        (cpre ++ u :: crest) none = true →
      (cpre ++ u :: crest).Nodup →
      (cpre ++ u :: crest).getLast? = some tp →
      (∀ a ∈ cpre, refcount.getD a 0 ≠ 0) →
      refcount.getD u 0 = 0 →
      (cpre ++ u :: crest).length < fuel →
      elruWalk t refcount ring s ((cpre ++ u :: crest).head?) fuel
        = (match StrategyAccessBuffer t (u : Int) false
              (setNode s u
                { getNode s u with
                    last_accessed := TIMESTAMP_NIL
                    second_last_accessed := TIMESTAMP_NIL }) with
           | none => none
           | some s2 =>
             some { result := GetBufferResult.frame u false, state := s2, ring := ring }) := by
  intro cpre
  induction cpre with
  | nil =>
    intro u crest fuel hsp hnd hlast hpre hu hf
    cases fuel with
    | zero => simp at hf
    | succ f =>
      simp only [List.nil_append, List.head?_cons]
      simp only [elruWalk]
      rw [if_pos hu]
  | cons a cpre ih =>
    intro u crest fuel hsp hnd hlast hpre hu hf
    simp only [List.cons_append, List.head?_cons] at hsp ⊢
    simp only [List.cons_append] at hlast hnd hf
    obtain ⟨-, hsp2⟩ := (spellsVia_cons_iff ..).mp hsp
    have hne2 : (cpre ++ u :: crest) ≠ [] := by simp
    obtain ⟨ha2p, hspb⟩ := spellsVia_head s.nodes _ _ _ _ hne2 hsp2
    have ha2 : (getNode s a).prev = (cpre ++ u :: crest).head? := ha2p
    have hlast2 : (cpre ++ u :: crest).getLast? = some tp := by
      rw [← hlast, getLast?_cons_of_ne a _ hne2]
    have htpmem : tp ∈ cpre ++ u :: crest := by
      have hl2 := hlast2
      rw [List.getLast?_eq_getLast _ hne2] at hl2
      injection hl2 with hl3
      rw [← hl3]
      exact List.getLast_mem hne2
    have hnd2 : a ∉ (cpre ++ u :: crest) ∧ (cpre ++ u :: crest).Nodup :=
      List.nodup_cons.mp hnd
    have hatp : a ≠ tp := by
      intro hcon
      subst hcon
      exact hnd2.1 htpmem
    cases fuel with
    | zero => simp at hf
    | succ f =>
      simp only [elruWalk, htp]
      rw [if_neg (hpre a (by simp)), if_neg (fun hc => hatp hc.symm), ha2]
      exact ih u crest f hspb hnd2.2 hlast2
        (fun x hx => hpre x (by simp [hx])) hu (by simp at hf ⊢; omega)

theorem getNode_update_stackBottom (s : StrategyState) (o : Option Nat) (i : Nat) :
    getNode { s with stackBottom := o } i = getNode s i := rfl

theorem getNode_update_stackTop (s : StrategyState) (o : Option Nat) (i : Nat) :
    getNode { s with stackTop := o } i = getNode s i := rfl

theorem stackBottom_update_stackBottom (s : StrategyState) (o : Option Nat) :
    ({ s with stackBottom := o } : StrategyState).stackBottom = o := rfl

theorem stackTop_update_stackTop (s : StrategyState) (o : Option Nat) :
    ({ s with stackTop := o } : StrategyState).stackTop = o := rfl

theorem getNode_mk_nodes (x : StrategyState) (st sb : Option Nat) (ff lf : Int)
    (fn : List Int) (nv cp na : Nat) (bg : Int) (i : Nat) :
    getNode { nodes := x.nodes, stackTop := st, stackBottom := sb, firstFreeBuffer := ff,
              lastFreeBuffer := lf, freeNext := fn, nextVictimBuffer := nv,
              completePasses := cp, numBufferAllocs := na, bgwprocno := bg } i
      = getNode x i := rfl

/-- Unlinking and re-inserting the bottom node of a chain with at least one
node above it proceeds without any NULL dereference: the touch completes. -/
theorem SAB_resident_bottom_some (t : Int) (s : StrategyState) (v j tp : Nat)
    (lr : List Nat)
    (hvN : v < s.nodes.length)
    (hjN : j < s.nodes.length)
    (hbot : s.stackBottom = some v)
    (htp : s.stackTop = some tp)
    (hprev : (getNode s v).prev = some j)
    (hnotin : v ∉ (j :: lr))
    (hsp : spellsVia s.nodes (fun nd => nd.prev) (some j) (j :: lr) none = true)
    (hfuel : lr.length + 1 < s.nodes.length + 1) :
    ∃ s2, StrategyAccessBuffer t (v : Int) false s = some s2 := by
  have hvj : ¬ (v = j) := fun hc => hnotin (by simp [hc])
  have hrange : ¬ ((v : Int) < 0 ∨ (s.nodes.length : Int) ≤ (v : Int)) := by
    simp only [not_or, not_lt, not_le]
    omega
  simp only [StrategyAccessBuffer]
  rw [if_neg hrange]
  rw [if_neg (by simp : ¬ ((false : Bool) = true))]
  simp only [Int.toNat_natCast, hprev]
  rw [getNode_setNode_self s v _ hvN]
  rw [if_neg (fun h => by simp at h)]
  rw [setNode_stackBottom]
  simp only [hbot, if_true]
  simp only [getNode_update_stackBottom]
  rw [getNode_setNode_self s v _ hvN]
  simp only [getNode_setNode_ne s v _ j (fun hc => hvj hc.symm)]
  simp only [processStackBottomToTop, setNode_stackBottom,
             stackBottom_update_stackBottom]
  refine pSBT_go_some _ v tp ?_ lr j _ ?_ ?_
  · exact htp
  · show spellsVia
        ((s.nodes.set v ⟨some j, (getNode s v).next, t, (getNode s v).last_accessed⟩).set j
          ⟨(getNode s j).prev, none, (getNode s j).last_accessed,
           (getNode s j).second_last_accessed⟩)
        (fun nd => nd.prev) (some j) (j :: lr) none = true
    have hcong : ∀ i ∈ (j :: lr), (fun nd => nd.prev)
        (((s.nodes.set v ⟨some j, (getNode s v).next, t, (getNode s v).last_accessed⟩).set j
          ⟨(getNode s j).prev, none, (getNode s j).last_accessed,
           (getNode s j).second_last_accessed⟩).getD i defaultNode)
        = (fun nd => nd.prev) (s.nodes.getD i defaultNode) := by
      intro i hi
      have hiv : i ≠ v := fun hc => hnotin (hc ▸ hi)
      by_cases hij : i = j
      · subst hij
        rw [getD_set_node_self _ i _ (by rw [List.length_set]; exact hjN)]
        rfl
      · rw [getD_set_node_ne _ j _ i hij, getD_set_node_ne _ v _ i hiv]
    rw [spellsVia_congr s.nodes _ (fun nd => nd.prev) (j :: lr) hcong (some j) none]
    exact hsp
  · show lr.length + 1 <
      ((s.nodes.set v ⟨some j, (getNode s v).next, t, (getNode s v).last_accessed⟩).set j
        ⟨(getNode s j).prev, none, (getNode s j).last_accessed,
         (getNode s j).second_last_accessed⟩).length + 1
    simpa [List.length_set] using hfuel

/-- Unlinking and re-inserting the top node of a chain with at least one
node below it proceeds without any NULL dereference. -/
theorem SAB_resident_top_some (t : Int) (s : StrategyState) (v q b0 : Nat)
    (lp : List Nat)
    (hvN : v < s.nodes.length)
    (hqN : q < s.nodes.length)
    (hbot : s.stackBottom = some b0)
    (htp : s.stackTop = some v)
    (hnext : (getNode s v).next = some q)
    (hhead : (lp ++ [q]).head? = some b0)
    (hnotin : v ∉ lp ++ [q])
    (hnd : (lp ++ [q]).Nodup)
    (hsplp : spellsVia s.nodes (fun nd => nd.prev) (some b0) (lp ++ [q]) (some v) = true)
    (hfuel : (lp ++ [q]).length < s.nodes.length + 1) :
    ∃ s2, StrategyAccessBuffer t (v : Int) false s = some s2 := by
  have hvq : ¬ (v = q) := fun hc => hnotin (by simp [hc])
  have hb0v : ¬ (b0 = v) := by
    intro hc
    apply hnotin
    cases lp with
    | nil =>
      have hq : q = b0 := by simpa using hhead
      simp [hq.trans hc]
    | cons x xs =>
      have hx : x = b0 := by simpa using hhead
      simp [hx.trans hc]
  have hqlp : q ∉ lp :=
    fun hq => (List.nodup_append.mp hnd).2.2 hq (by simp)
  have hrange : ¬ ((v : Int) < 0 ∨ (s.nodes.length : Int) ≤ (v : Int)) := by
    simp only [not_or, not_lt, not_le]
    omega
  simp only [StrategyAccessBuffer]
  rw [if_neg hrange]
  rw [if_neg (by simp : ¬ ((false : Bool) = true))]
  simp only [Int.toNat_natCast, hnext]
  rw [getNode_setNode_self s v _ hvN]
  rw [if_neg (fun h => by simp at h)]
  rw [setNode_stackBottom]
  simp only [hbot]
  rw [if_neg hb0v]
  rw [setNode_stackTop]
  simp only [htp, if_true]
  simp only [getNode_mk_nodes]
  rw [getNode_setNode_self s v _ hvN]
  simp only [getNode_setNode_ne s v _ q (fun hc => hvq hc.symm)]
  simp only [processStackBottomToTop, setNode_stackBottom]
  obtain ⟨rest, hrest⟩ : ∃ rest, lp ++ [q] = b0 :: rest := by
    cases hc : lp ++ [q] with
    | nil => simp at hc
    | cons x xs =>
      rw [hc] at hhead
      simp only [List.head?_cons, Option.some.injEq] at hhead
      exact ⟨xs, by rw [hhead]⟩
  obtain ⟨m, hm1, hm2⟩ :=
    (spellsVia_append s.nodes (fun nd => nd.prev) lp (some b0) (some v) [q]).mp hsplp
  obtain ⟨hmq, hm3⟩ := (spellsVia_cons_iff ..).mp hm2
  subst hmq
  refine pSBT_go_some _ v q ?_ rest b0 _ ?_ ?_
  · rfl
  · show spellsVia
        ((s.nodes.set v ⟨(getNode s v).prev, some q, t, (getNode s v).last_accessed⟩).set q
          ⟨none, (getNode s q).next, (getNode s q).last_accessed,
           (getNode s q).second_last_accessed⟩)
        (fun nd => nd.prev) (some b0) (b0 :: rest) none = true
    rw [← hrest]
    have hseg1 : spellsVia
        ((s.nodes.set v ⟨(getNode s v).prev, some q, t, (getNode s v).last_accessed⟩).set q
          ⟨none, (getNode s q).next, (getNode s q).last_accessed,
           (getNode s q).second_last_accessed⟩)
        (fun nd => nd.prev) (some b0) lp (some q) = true := by
      have hcong : ∀ i ∈ lp, (fun nd => nd.prev)
          (((s.nodes.set v ⟨(getNode s v).prev, some q, t, (getNode s v).last_accessed⟩).set q
            ⟨none, (getNode s q).next, (getNode s q).last_accessed,
             (getNode s q).second_last_accessed⟩).getD i defaultNode)
          = (fun nd => nd.prev) (s.nodes.getD i defaultNode) := by
        intro i hi
        have hiv : i ≠ v := fun hc => hnotin (hc ▸ (by simp [hi]))
        have hiq : i ≠ q := fun hc => hqlp (hc ▸ hi)
        rw [getD_set_node_ne _ q _ i hiq, getD_set_node_ne _ v _ i hiv]
      rw [spellsVia_congr s.nodes _ (fun nd => nd.prev) lp hcong (some b0) (some q)]
      exact hm1
    have hseg2 : spellsVia
        ((s.nodes.set v ⟨(getNode s v).prev, some q, t, (getNode s v).last_accessed⟩).set q
          ⟨none, (getNode s q).next, (getNode s q).last_accessed,
           (getNode s q).second_last_accessed⟩)
        (fun nd => nd.prev) (some q) [q] none = true := by
      refine (spellsVia_cons_iff ..).mpr ⟨rfl, ?_⟩
      rw [getD_set_node_self _ q _ (by rw [List.length_set]; exact hqN)]
      simp [spellsVia]
    exact (spellsVia_append _ (fun nd => nd.prev) lp (some b0) none [q]).mpr
      ⟨some q, hseg1, hseg2⟩
  · show rest.length + 1 <
      ((s.nodes.set v ⟨(getNode s v).prev, some q, t, (getNode s v).last_accessed⟩).set q
        ⟨none, (getNode s q).next, (getNode s q).last_accessed,
         (getNode s q).second_last_accessed⟩).length + 1
    have hlr : (lp ++ [q]).length = rest.length + 1 := by rw [hrest]; rfl
    simp only [List.length_set]
    omega

/-- Unlinking and re-inserting a node strictly inside the chain proceeds
without any NULL dereference. -/
theorem SAB_resident_mid_some (t : Int) (s : StrategyState) (v q w b0 tp : Nat)
    (lp0 lr2 : List Nat)
    (hvN : v < s.nodes.length)
    (hqN : q < s.nodes.length)
    (hwN : w < s.nodes.length)
    (hbot : s.stackBottom = some b0)
    (htp : s.stackTop = some tp)
    (htpv : ¬ (tp = v))
    (hb0v : ¬ (b0 = v))
    (hnext : (getNode s v).next = some q)
    (hprevv : (getNode s v).prev = some w)
    (hhead : (lp0 ++ [q]).head? = some b0)
    (hvq : v ≠ q) (hvw : v ≠ w) (hqw : q ≠ w)
    (hvlp : v ∉ lp0) (hqlp : q ∉ lp0) (hwlp : w ∉ lp0)
    (hvlr : v ∉ lr2) (hqlr : q ∉ lr2) (hwlr : w ∉ lr2)
    (hsplp : spellsVia s.nodes (fun nd => nd.prev) (some b0) (lp0 ++ [q]) (some v) = true)
    (hsplr : spellsVia s.nodes (fun nd => nd.prev) (some w) (w :: lr2) none = true)
    (hfuel : (lp0 ++ [q]).length + (w :: lr2).length < s.nodes.length + 1) :
    ∃ s2, StrategyAccessBuffer t (v : Int) false s = some s2 := by
  have hrange : ¬ ((v : Int) < 0 ∨ (s.nodes.length : Int) ≤ (v : Int)) := by
    simp only [not_or, not_lt, not_le]
    omega
  have hwalksp : spellsVia
      (s.nodes.set v ⟨some w, some q, t, (getNode s v).last_accessed⟩)
      (fun nd => nd.prev) (some v) (v :: w :: lr2) none = true := by
    refine (spellsVia_cons_iff ..).mpr ⟨rfl, ?_⟩
    rw [getD_set_node_self _ v _ hvN]
    have hcong : ∀ i ∈ (w :: lr2), (fun nd => nd.prev)
        ((s.nodes.set v ⟨some w, some q, t, (getNode s v).last_accessed⟩).getD i defaultNode)
        = (fun nd => nd.prev) (s.nodes.getD i defaultNode) := by
      intro i hi
      have hiv : i ≠ v := by
        rcases List.mem_cons.mp hi with h | h
        · exact fun hc => hvw (hc.symm.trans h)
        · exact fun hc => hvlr (hc ▸ h)
      rw [getD_set_node_ne _ v _ i hiv]
    show spellsVia _ (fun nd => nd.prev) (some w) (w :: lr2) none = true
    rw [spellsVia_congr s.nodes _ (fun nd => nd.prev) (w :: lr2) hcong (some w) none]
    exact hsplr
  have hwalk : walkPrevOk (setNode s v ⟨some w, some q, t, (getNode s v).last_accessed⟩) v
      ((setNode s v ⟨some w, some q, t, (getNode s v).last_accessed⟩).nodes.length + 1)
      = true := by
    refine walkPrevOk_of_spells _ (w :: lr2) v _ ?_ ?_
    · exact hwalksp
    · rw [setNode_length]
      simp only [List.length_append, List.length_cons] at hfuel ⊢
      omega
  simp only [StrategyAccessBuffer]
  rw [if_neg hrange]
  rw [if_neg (by simp : ¬ ((false : Bool) = true))]
  simp only [Int.toNat_natCast, hnext, hprevv]
  rw [getNode_setNode_self s v _ hvN]
  rw [if_neg (fun h => by simp at h)]
  rw [setNode_stackBottom]
  simp only [hbot]
  rw [if_neg hb0v]
  rw [setNode_stackTop]
  simp only [htp]
  rw [if_neg htpv]
  rw [if_pos hwalk]
  simp only [getNode_setNode_ne s v _ q (fun hc => hvq hc.symm)]
  simp only [getNode_setNode_ne _ q _ v hvq]
  simp only [getNode_setNode_self s v _ hvN]
  simp only [getNode_setNode_ne _ q _ w (fun hc => hqw hc.symm)]
  simp only [getNode_setNode_ne s v _ w (fun hc => hvw hc.symm)]
  simp only [processStackBottomToTop, setNode_stackBottom]
  simp only [hbot]
  obtain ⟨rest, hrest⟩ : ∃ rest, lp0 ++ [q] ++ w :: lr2 = b0 :: rest := by
    cases hc : lp0 ++ [q] with
    | nil => simp at hc
    | cons x xs =>
      rw [hc] at hhead
      simp only [List.head?_cons, Option.some.injEq] at hhead
      refine ⟨xs ++ w :: lr2, ?_⟩
      rw [hhead]
      simp
  obtain ⟨m, hm1, hm2⟩ :=
    (spellsVia_append s.nodes (fun nd => nd.prev) lp0 (some b0) (some v) [q]).mp hsplp
  obtain ⟨hmq, hm3⟩ := (spellsVia_cons_iff ..).mp hm2
  subst hmq
  refine pSBT_go_some _ v tp ?_ rest b0 _ ?_ ?_
  · exact htp
  · show spellsVia
        (((s.nodes.set v ⟨some w, some q, t, (getNode s v).last_accessed⟩).set q
          ⟨some w, (getNode s q).next, (getNode s q).last_accessed,
           (getNode s q).second_last_accessed⟩).set w
          ⟨(getNode s w).prev, some q, (getNode s w).last_accessed,
           (getNode s w).second_last_accessed⟩)
        (fun nd => nd.prev) (some b0) (b0 :: rest) none = true
    rw [← hrest]
    have hseg1 : spellsVia
        (((s.nodes.set v ⟨some w, some q, t, (getNode s v).last_accessed⟩).set q
          ⟨some w, (getNode s q).next, (getNode s q).last_accessed,
           (getNode s q).second_last_accessed⟩).set w
          ⟨(getNode s w).prev, some q, (getNode s w).last_accessed,
           (getNode s w).second_last_accessed⟩)
        (fun nd => nd.prev) (some b0) lp0 (some q) = true := by
      have hcong : ∀ i ∈ lp0, (fun nd => nd.prev)
          ((((s.nodes.set v ⟨some w, some q, t, (getNode s v).last_accessed⟩).set q
            ⟨some w, (getNode s q).next, (getNode s q).last_accessed,
             (getNode s q).second_last_accessed⟩).set w
            ⟨(getNode s w).prev, some q, (getNode s w).last_accessed,
             (getNode s w).second_last_accessed⟩).getD i defaultNode)
          = (fun nd => nd.prev) (s.nodes.getD i defaultNode) := by
        intro i hi
        have hiv : i ≠ v := fun hc => hvlp (hc ▸ hi)
        have hiq : i ≠ q := fun hc => hqlp (hc ▸ hi)
        have hiw : i ≠ w := fun hc => hwlp (hc ▸ hi)
        rw [getD_set_node_ne _ w _ i hiw, getD_set_node_ne _ q _ i hiq,
            getD_set_node_ne _ v _ i hiv]
      rw [spellsVia_congr s.nodes _ (fun nd => nd.prev) lp0 hcong (some b0) (some q)]
      exact hm1
    have hseg2 : spellsVia
        (((s.nodes.set v ⟨some w, some q, t, (getNode s v).last_accessed⟩).set q
          ⟨some w, (getNode s q).next, (getNode s q).last_accessed,
           (getNode s q).second_last_accessed⟩).set w
          ⟨(getNode s w).prev, some q, (getNode s w).last_accessed,
           (getNode s w).second_last_accessed⟩)
        (fun nd => nd.prev) (some q) [q] (some w) = true := by
      refine (spellsVia_cons_iff ..).mpr ⟨rfl, ?_⟩
      rw [getD_set_node_ne _ w _ q hqw,
          getD_set_node_self _ q _ (by rw [List.length_set]; exact hqN)]
      simp [spellsVia]
    have hseg3 : spellsVia
        (((s.nodes.set v ⟨some w, some q, t, (getNode s v).last_accessed⟩).set q
          ⟨some w, (getNode s q).next, (getNode s q).last_accessed,
           (getNode s q).second_last_accessed⟩).set w
          ⟨(getNode s w).prev, some q, (getNode s w).last_accessed,
           (getNode s w).second_last_accessed⟩)
        (fun nd => nd.prev) (some w) (w :: lr2) none = true := by
      have hcong : ∀ i ∈ (w :: lr2), (fun nd => nd.prev)
          ((((s.nodes.set v ⟨some w, some q, t, (getNode s v).last_accessed⟩).set q
            ⟨some w, (getNode s q).next, (getNode s q).last_accessed,
             (getNode s q).second_last_accessed⟩).set w
            ⟨(getNode s w).prev, some q, (getNode s w).last_accessed,
             (getNode s w).second_last_accessed⟩).getD i defaultNode)
          = (fun nd => nd.prev) (s.nodes.getD i defaultNode) := by
        intro i hi
        rcases List.mem_cons.mp hi with h | h
        · subst h
          rw [getD_set_node_self _ i _ (by
            rw [List.length_set, List.length_set]
            exact hwN)]
          rfl
        · have hiv : i ≠ v := fun hc => hvlr (hc ▸ h)
          have hiq : i ≠ q := fun hc => hqlr (hc ▸ h)
          have hiw : i ≠ w := fun hc => hwlr (hc ▸ h)
          rw [getD_set_node_ne _ w _ i hiw, getD_set_node_ne _ q _ i hiq,
              getD_set_node_ne _ v _ i hiv]
      rw [spellsVia_congr s.nodes _ (fun nd => nd.prev) (w :: lr2) hcong (some w) none]
      exact hsplr
    refine (spellsVia_append _ (fun nd => nd.prev) (lp0 ++ [q]) (some b0) none
      (w :: lr2)).mpr ⟨some w, ?_, hseg3⟩
    exact (spellsVia_append _ (fun nd => nd.prev) lp0 (some b0) (some w) [q]).mpr
      ⟨some q, hseg1, hseg2⟩
  · show rest.length + 1 <
      (((s.nodes.set v ⟨some w, some q, t, (getNode s v).last_accessed⟩).set q
        ⟨some w, (getNode s q).next, (getNode s q).last_accessed,
         (getNode s q).second_last_accessed⟩).set w
        ⟨(getNode s w).prev, some q, (getNode s w).last_accessed,
         (getNode s w).second_last_accessed⟩).length + 1
    have hlr : (lp0 ++ [q] ++ w :: lr2).length = rest.length + 1 := by rw [hrest]; rfl
    simp only [List.length_set]
    simp only [List.length_append, List.length_cons] at hfuel hlr
    omega

/-- On a well-formed stack of at least two nodes, touching any resident
node reaches processStackBottomToTop without a NULL dereference and
terminates. -/
theorem SAB_resident_some (t : Int) (s : StrategyState) (v : Nat) (l : List Nat)
    (hvstk : validStackB s l = true) (hvmem : v ∈ l) (hlen2 : 2 ≤ l.length) :
    ∃ s2, StrategyAccessBuffer t (v : Int) false s = some s2 := by
  obtain ⟨hP, hN, hB, hnd⟩ := validStackB_parts hvstk
  obtain ⟨lp, lr, hldec⟩ := List.append_of_mem hvmem
  subst hldec
  have hvN : v < s.nodes.length := hB v hvmem
  have hlenle : (lp ++ v :: lr).length ≤ s.nodes.length :=
    nodup_bounded_length_le _ _ hnd hB
  obtain ⟨m1, hm1, hm2⟩ :=
    (spellsVia_append s.nodes (fun nd => nd.prev) lp s.stackBottom none (v :: lr)).mp hP
  obtain ⟨hm1v, hmrest⟩ := (spellsVia_cons_iff ..).mp hm2
  have hm1v' : m1 = some v := by simpa using hm1v
  subst hm1v'
  have hrev : (lp ++ v :: lr).reverse = lr.reverse ++ v :: lp.reverse := by
    simp
  rw [hrev] at hN
  obtain ⟨m2, hn1, hn2⟩ :=
    (spellsVia_append s.nodes (fun nd => nd.next) lr.reverse s.stackTop none
      (v :: lp.reverse)).mp hN
  obtain ⟨hn2v, hnrest⟩ := (spellsVia_cons_iff ..).mp hn2
  have hn2v' : m2 = some v := by simpa using hn2v
  subst hn2v'
  have hndlp : lp.Nodup := (List.nodup_append.mp hnd).1
  have hndvr : (v :: lr).Nodup := (List.nodup_append.mp hnd).2.1
  have hdisj : lp.Disjoint (v :: lr) := (List.nodup_append.mp hnd).2.2
  have hvlr : v ∉ lr := (List.nodup_cons.mp hndvr).1
  have hvlp : v ∉ lp := fun hc => hdisj hc (by simp)
  cases lp with
  | nil =>
    -- v is the stack bottom
    cases lr with
    | nil => simp at hlen2
    | cons j lr2 =>
      have hbot : s.stackBottom = some v := by
        have h := hm1
        simp only [spellsVia] at h
        exact beq_iff_eq.mp h
      obtain ⟨hj, hjs⟩ := (spellsVia_cons_iff ..).mp hmrest
      have hprev : (getNode s v).prev = some j := hj
      have hspj : spellsVia s.nodes (fun nd => nd.prev) (some j) (j :: lr2) none = true :=
        (spellsVia_cons_iff ..).mpr ⟨rfl, hjs⟩
      obtain ⟨hh1, -⟩ := spellsVia_head s.nodes (fun nd => nd.next) s.stackTop
        ((j :: lr2).reverse) (some v) (by simp) hn1
      obtain ⟨a, as, hrev2⟩ : ∃ a as, (j :: lr2).reverse = a :: as := by
        cases hc : (j :: lr2).reverse with
        | nil => simp at hc
        | cons a as => exact ⟨a, as, rfl⟩
      have htpv : s.stackTop = some a := by rw [hh1, hrev2]; rfl
      refine SAB_resident_bottom_some t s v j a lr2 hvN (hB j (by simp)) hbot htpv
        hprev ?_ hspj ?_
      · exact hvlr
      · simp only [List.nil_append, List.length_cons] at hlenle
        omega
  | cons x lp1 =>
    have hlpne : (x :: lp1 : List Nat) ≠ [] := by simp
    obtain ⟨lp0, q, hlpc0⟩ := (List.eq_nil_or_concat (x :: lp1)).resolve_left hlpne
    have hlpc : (x :: lp1 : List Nat) = lp0 ++ [q] := by
      rw [hlpc0, List.concat_eq_append]
    obtain ⟨b0, hb0⟩ : ∃ b0, (x :: lp1 : List Nat).head? = some b0 := ⟨x, rfl⟩
    have hbot : s.stackBottom = some b0 := by
      have hh := spellsVia_head s.nodes (fun nd => nd.prev) s.stackBottom (x :: lp1)
        (some v) hlpne hm1
      rw [hh.1, hb0]
    have hb0mem : b0 ∈ (x :: lp1 : List Nat) := by
      simp only [List.head?_cons, Option.some.injEq] at hb0
      simp [hb0]
    have hb0v : ¬ (b0 = v) := fun hc => hvlp (hc ▸ hb0mem)
    have hsplp : spellsVia s.nodes (fun nd => nd.prev) (some b0) (lp0 ++ [q]) (some v)
        = true := by
      rw [← hlpc, ← hbot]
      exact hm1
    have hlprev : (x :: lp1 : List Nat).reverse = q :: lp0.reverse := by
      rw [hlpc]
      simp
    rw [hlprev] at hnrest
    obtain ⟨hqn, hnext2⟩ := (spellsVia_cons_iff ..).mp hnrest
    have hnext : (getNode s v).next = some q := hqn
    have hqmem : q ∈ (x :: lp1 : List Nat) := by rw [hlpc]; simp
    have hvq : v ≠ q := fun hc => hvlp (hc ▸ hqmem)
    have hqlp0 : q ∉ lp0 := by
      have := hndlp
      rw [hlpc] at this
      exact fun hq => (List.nodup_append.mp this).2.2 hq (by simp)
    cases lr with
    | nil =>
      -- v is the stack top
      have htp : s.stackTop = some v := by
        have h := hn1
        simp only [List.reverse_nil, spellsVia] at h
        exact beq_iff_eq.mp h
      refine SAB_resident_top_some t s v q b0 lp0 hvN
        (hB q (List.mem_append_left _ hqmem))
        hbot htp hnext ?_ ?_ ?_ hsplp ?_
      · rw [← hlpc]; exact hb0
      · rw [← hlpc]; exact hvlp
      · rw [← hlpc]; exact hndlp
      · rw [← hlpc]
        simp only [List.length_append, List.length_cons, List.length_nil] at hlenle ⊢
        omega
    | cons w lr2 =>
      -- v is strictly inside the chain
      obtain ⟨hwp, hsplr⟩ := (spellsVia_cons_iff ..).mp hmrest
      have hprevv : (getNode s v).prev = some w := hwp
      have hsplr2 : spellsVia s.nodes (fun nd => nd.prev) (some w) (w :: lr2) none
          = true := (spellsVia_cons_iff ..).mpr ⟨rfl, hsplr⟩
      obtain ⟨hh1, -⟩ := spellsVia_head s.nodes (fun nd => nd.next) s.stackTop
        ((w :: lr2).reverse) (some v) (by simp) hn1
      obtain ⟨tp, as, hrev2⟩ : ∃ tp as, (w :: lr2).reverse = tp :: as := by
        cases hc : (w :: lr2).reverse with
        | nil => simp at hc
        | cons a as => exact ⟨a, as, rfl⟩
      have htpeq : s.stackTop = some tp := by rw [hh1, hrev2]; rfl
      have htpmem : tp ∈ w :: lr2 := List.mem_reverse.mp (by rw [hrev2]; simp)
      have hvwlr : v ∉ w :: lr2 := hvlr
      have htpv : ¬ (tp = v) := fun hc => hvwlr (hc ▸ htpmem)
      have hvw : v ≠ w := fun hc => hvwlr (by simp [hc])
      have hqwlr : q ∉ w :: lr2 := hdisj hqmem ∘ List.mem_cons_of_mem v
      have hqw : q ≠ w := fun hc => hqwlr (by simp [hc])
      have hqlr2 : q ∉ lr2 := fun hc => hqwlr (by simp [hc])
      have hwlp : w ∉ (x :: lp1 : List Nat) :=
        fun hc => hdisj hc (by simp)
      have hwlp0 : w ∉ lp0 := fun hc => hwlp (by rw [hlpc]; simp [hc])
      have hvlp0 : v ∉ lp0 := fun hc => hvlp (by rw [hlpc]; simp [hc])
      have hwlr2 : w ∉ lr2 := by
        have := (List.nodup_cons.mp hndvr).2
        exact (List.nodup_cons.mp this).1
      refine SAB_resident_mid_some t s v q w b0 tp lp0 lr2 hvN
        (hB q (List.mem_append_left _ hqmem))
        (hB w (List.mem_append_right _ (by simp))) hbot htpeq htpv hb0v hnext hprevv
        ?_ hvq hvw hqw hvlp0 hqlp0
        hwlp0 (fun hc => hvwlr (by simp [hc])) hqlr2 hwlr2 hsplp hsplr2 ?_
      · rw [← hlpc]; exact hb0
      · rw [← hlpc]
        simp only [List.length_append, List.length_cons] at hlenle ⊢
        omega

/-- A list containing an element satisfying the test splits at the first
such element. -/
theorem exists_first_split (refcount : List Nat) :
    ∀ (l : List Nat), (∃ u ∈ l, refcount.getD u 0 = 0) →
    ∃ cpre u crest, l = cpre ++ u :: crest ∧ refcount.getD u 0 = 0 ∧
      ∀ a ∈ cpre, refcount.getD a 0 ≠ 0 := by
  intro l
  induction l with
  | nil => intro h; simp at h
  | cons x xs ih =>
    intro h
    by_cases hx : refcount.getD x 0 = 0
    · exact ⟨[], x, xs, rfl, hx, by simp⟩
    · have hxs : ∃ u ∈ xs, refcount.getD u 0 = 0 := by
        obtain ⟨u, hu, hu0⟩ := h
        rcases List.mem_cons.mp hu with h1 | h1
        · exact absurd (h1 ▸ hu0) hx
        · exact ⟨u, h1, hu0⟩
      obtain ⟨cpre, u, crest, hdec, hu0, hpre⟩ := ih hxs
      refine ⟨x :: cpre, u, crest, by rw [hdec]; rfl, hu0, ?_⟩
      intro a ha
      rcases List.mem_cons.mp ha with h1 | h1
      · exact h1 ▸ hx
      · exact hpre a h1

/-- With an empty free list the freelist loop exits at once, leaving the
state untouched. -/
theorem freelistLoop_skip (t : Int) (refcount usagecount : List Nat)
    (s : StrategyState) (fuel : Nat) (hff : s.firstFreeBuffer < 0) :
    freelistLoop t refcount usagecount s (fuel + 1) = some (Sum.inl s) := by
  simp only [freelistLoop]
  rw [if_pos hff]

/-- Outcome of the LRU walk on a well-formed stack: an empty stack falls
off the end of the function, a fully pinned stack raises the
no-unpinned-buffer error, and a stack of at least two nodes with some
unpinned node yields a victim frame. -/
theorem C2_walk_cases (t : Int) (refcount : List Nat)
    (ring : Option BufferAccessStrategyData)
    (s : StrategyState) (l : List Nat) (hv : validStackB s l = true) :
    (l = [] → elruWalk t refcount ring s s.stackBottom (s.nodes.length + 1)
        = some ⟨GetBufferResult.fellThrough, s, ring⟩) ∧
    ((l ≠ [] ∧ ∀ u ∈ l, refcount.getD u 0 ≠ 0) →
        elruWalk t refcount ring s s.stackBottom (s.nodes.length + 1)
        = some ⟨GetBufferResult.noUnpinnedBuffer, s, ring⟩) ∧
    ((2 ≤ l.length ∧ ∃ u ∈ l, refcount.getD u 0 = 0) →
        ∃ o u, elruWalk t refcount ring s s.stackBottom (s.nodes.length + 1) = some o ∧
          o.result = GetBufferResult.frame u false ∧ refcount.getD u 0 = 0) := by
  obtain ⟨hP, hN, hB, hnd⟩ := validStackB_parts hv
  have hlenle : l.length ≤ s.nodes.length := nodup_bounded_length_le _ _ hnd hB
  refine ⟨?_, ?_, ?_⟩
  · intro hl
    subst hl
    have hbot : s.stackBottom = none := by
      have h := hP
      simp only [spellsVia] at h
      exact beq_iff_eq.mp h
    rw [hbot]
    simp only [elruWalk]
  · rintro ⟨hne, hpin⟩
    obtain ⟨b0, rest, hlc⟩ : ∃ b0 rest, l = b0 :: rest := by
      cases l with
      | nil => exact absurd rfl hne
      | cons a as => exact ⟨a, as, rfl⟩
    subst hlc
    have hbot : s.stackBottom = some b0 := by
      have hh := spellsVia_head s.nodes (fun nd => nd.prev) s.stackBottom (b0 :: rest)
        none (by simp) hP
      rw [hh.1]; rfl
    obtain ⟨hh1, -⟩ := spellsVia_head s.nodes (fun nd => nd.next) s.stackTop
      ((b0 :: rest).reverse) none (by simp) hN
    obtain ⟨tp, as, hrev2⟩ : ∃ tp as, (b0 :: rest).reverse = tp :: as := by
      cases hc : (b0 :: rest).reverse with
      | nil => simp at hc
      | cons a as => exact ⟨a, as, rfl⟩
    have htp : s.stackTop = some tp := by rw [hh1, hrev2]; rfl
    have hlast : (b0 :: rest).getLast? = some tp := by
      rw [← List.head?_reverse, hrev2]
      rfl
    rw [hbot]
    refine elruWalk_all_pinned t refcount ring s tp htp rest b0 _ ?_ hlast hpin hnd ?_
    · rw [← hbot]
      exact hP
    · simp only [List.length_cons] at hlenle
      omega
  · rintro ⟨hlen2, hex⟩
    obtain ⟨cpre, u, crest, hdec, hu0, hpre⟩ := exists_first_split refcount l hex
    have hne : l ≠ [] := by rw [hdec]; simp
    obtain ⟨hh1, -⟩ := spellsVia_head s.nodes (fun nd => nd.next) s.stackTop
      (l.reverse) none (by simpa using hne) hN
    obtain ⟨tp, as, hrev2⟩ : ∃ tp as, l.reverse = tp :: as := by
      cases hc : l.reverse with
      | nil => rw [List.reverse_eq_nil_iff] at hc; exact absurd hc hne
      | cons a as => exact ⟨a, as, rfl⟩
    have htp : s.stackTop = some tp := by rw [hh1, hrev2]; rfl
    have hlast : l.getLast? = some tp := by
      rw [← List.head?_reverse, hrev2]
      rfl
    have hbot : s.stackBottom = l.head? := by
      exact (spellsVia_head s.nodes (fun nd => nd.prev) s.stackBottom l none
        (by simpa using hne) hP).1
    have huN : u < s.nodes.length := hB u (by rw [hdec]; simp)
    have hwalk := elruWalk_first_unpinned t refcount ring s tp htp cpre u crest
      (s.nodes.length + 1) (by rw [← hdec, ← hbot]; exact hP) (by rw [← hdec]; exact hnd)
      (by rw [← hdec]; exact hlast) hpre hu0
      (by rw [← hdec]; omega)
    rw [hbot, hdec]
    rw [hwalk]
    have hvstk1 : validStackB (setNode s u
        { getNode s u with last_accessed := TIMESTAMP_NIL,
                           second_last_accessed := TIMESTAMP_NIL }) l = true := by
      rw [validStackB_setNode_ts s u l huN
        { getNode s u with last_accessed := TIMESTAMP_NIL,
                           second_last_accessed := TIMESTAMP_NIL } rfl rfl]
      exact hv
    obtain ⟨s2, hs2⟩ := SAB_resident_some t
      (setNode s u { getNode s u with last_accessed := TIMESTAMP_NIL,
                                      second_last_accessed := TIMESTAMP_NIL })
      u l hvstk1 (by rw [hdec]; simp) hlen2
    rw [hs2]
    exact ⟨_, u, rfl, rfl, hu0⟩

/-- Trichotomy of the post-ring allocation path for an empty free list:
fall through on an empty stack, the no-unpinned-buffer error when all
resident nodes are pinned, and a victim frame when at least two nodes are
resident and one is unpinned. -/
theorem tail_walk_form (t : Int) (refcount usagecount : List Nat)
    (ring : Option BufferAccessStrategyData) (sm : StrategyState) (l : List Nat)
    (hv : validStackB sm l = true) (hff : sm.firstFreeBuffer < 0)
    (fuel : Nat) (hfu : fuel ≠ 0) :
    (l = [] → ∃ o, (match freelistLoop t refcount usagecount sm fuel with
          | none => none
          | some (Sum.inr (bid, s1)) =>
            some { result := GetBufferResult.frame bid false, state := s1, ring := ring }
          | some (Sum.inl s1) =>
            elruWalk t refcount ring s1 s1.stackBottom (s1.nodes.length + 1)) = some o ∧
        o.result = GetBufferResult.fellThrough) ∧
    ((l ≠ [] ∧ ∀ u ∈ l, refcount.getD u 0 ≠ 0) →
        ∃ o, (match freelistLoop t refcount usagecount sm fuel with
          | none => none
          | some (Sum.inr (bid, s1)) =>
            some { result := GetBufferResult.frame bid false, state := s1, ring := ring }
          | some (Sum.inl s1) =>
            elruWalk t refcount ring s1 s1.stackBottom (s1.nodes.length + 1)) = some o ∧
        o.result = GetBufferResult.noUnpinnedBuffer) ∧
    ((2 ≤ l.length ∧ ∃ u ∈ l, refcount.getD u 0 = 0) →
        ∃ o u, (match freelistLoop t refcount usagecount sm fuel with
          | none => none
          | some (Sum.inr (bid, s1)) =>
            some { result := GetBufferResult.frame bid false, state := s1, ring := ring }
          | some (Sum.inl s1) =>
            elruWalk t refcount ring s1 s1.stackBottom (s1.nodes.length + 1)) = some o ∧
        o.result = GetBufferResult.frame u false ∧ refcount.getD u 0 = 0) := by
  obtain ⟨k, hk⟩ : ∃ k, fuel = k + 1 := ⟨fuel - 1, by omega⟩
  subst hk
  rw [freelistLoop_skip t refcount usagecount sm k hff]
  have hw := C2_walk_cases t refcount ring sm l hv
  refine ⟨?_, ?_, ?_⟩
  · intro hl
    refine ⟨⟨GetBufferResult.fellThrough, sm, ring⟩, ?_, rfl⟩
    show elruWalk t refcount ring sm sm.stackBottom (sm.nodes.length + 1) = _
    exact hw.1 hl
  · intro hp
    refine ⟨⟨GetBufferResult.noUnpinnedBuffer, sm, ring⟩, ?_, rfl⟩
    show elruWalk t refcount ring sm sm.stackBottom (sm.nodes.length + 1) = _
    exact hw.2.1 hp
  · intro hx
    obtain ⟨o, u, ho, hr, hu⟩ := hw.2.2 hx
    refine ⟨o, u, ?_, hr, hu⟩
    show elruWalk t refcount ring sm sm.stackBottom (sm.nodes.length + 1) = some o
    exact ho

/-- C2 (amended): with no ring strategy and an empty free list, on a
well-formed ELRU stack acquire_frame raises the no-unpinned-buffer error
exactly when the stack is nonempty and every resident node is pinned; when
the stack is empty it does not return a frame and does not raise the error
but falls off the end of the non-void function (undefined return value);
and when at least two nodes are resident and some node is unpinned it
returns an unpinned victim frame.  The original claim, refuted by
C2_empty_lists_fall_through, said an empty-stack call still returns a
frame; the sole-resident unpinned case instead crashes in the unlink
(C6_sole_resident_touch_crashes), so the two-node bound is needed. -/
theorem C2_amended_acquire (t : Int) (refcount usagecount : List Nat)
    (s : StrategyState) (l : List Nat)
    (hv : validStackB s l = true) (hff : s.firstFreeBuffer < 0) :
    (l = [] → ∃ o, StrategyGetBuffer t none refcount usagecount s = some o ∧
        o.result = GetBufferResult.fellThrough) ∧
    ((l ≠ [] ∧ ∀ u ∈ l, refcount.getD u 0 ≠ 0) →
        ∃ o, StrategyGetBuffer t none refcount usagecount s = some o ∧
        o.result = GetBufferResult.noUnpinnedBuffer) ∧
    ((2 ≤ l.length ∧ ∃ u ∈ l, refcount.getD u 0 = 0) →
        ∃ o u, StrategyGetBuffer t none refcount usagecount s = some o ∧
        o.result = GetBufferResult.frame u false ∧ refcount.getD u 0 = 0) := by
  simp only [StrategyGetBuffer, StrategyGetBufferTail]
  by_cases hbg : s.bgwprocno ≠ -1
  · simp only [if_pos hbg]
    exact tail_walk_form t refcount usagecount none _ l (by exact hv) (by exact hff)
      _ (by omega)
  · simp only [if_neg hbg]
    exact tail_walk_form t refcount usagecount none _ l (by exact hv) (by exact hff)
      _ (by omega)

/-- Witness for C2_amended_acquire: on the concrete two-node stack with
both frames unpinned and an empty free list, acquire_frame returns a
victim frame. -/
theorem C2_amended_acquire_witness :
    validStackB stateTwoResident [1, 0] = true ∧
    stateTwoResident.firstFreeBuffer < 0 ∧
    (∃ o u, StrategyGetBuffer 7 none [0, 0] [] stateTwoResident = some o ∧
      o.result = GetBufferResult.frame u false ∧ [0, 0].getD u 0 = 0) :=
  ⟨by decide, by decide,
    (C2_amended_acquire 7 [0, 0] [] stateTwoResident [1, 0] (by decide) (by decide)).2.2
      ⟨by decide, 1, by decide, by decide⟩⟩

/-- The insertion walk passes over every node that compares strictly
below the new node without modifying anything, reaching the first node
that does not. -/
theorem pSBT_go_skip (s : StrategyState) (nid tp : Nat) (htp : s.stackTop = some tp) :
    ∀ (lp : List Nat) (c : Nat) (lr : List Nat) (cur fuel : Nat),
      (lp ++ c :: lr).head? = some cur →
      spellsVia s.nodes (fun nd => nd.prev) (some cur) (lp ++ c :: lr) none = true →
      (lp ++ c :: lr).getLast? = some tp →
      (lp ++ c :: lr).Nodup →
      (∀ a ∈ lp, 0 < compareELRU (getNode s nid) (getNode s a)) →
      lp.length < fuel →
      pSBT_go s nid cur fuel = pSBT_go s nid c (fuel - lp.length) := by
  intro lp
  induction lp with
  | nil =>
    intro c lr cur fuel hhead hsp hlast hnd hgt hf
    have hcc : c = cur := by simpa using hhead
    rw [← hcc]
    simp
  | cons a lp ih =>
    intro c lr cur fuel hhead hsp hlast hnd hgt hf
    have hac : a = cur := by simpa using hhead
    subst hac
    simp only [List.cons_append] at hsp hlast hnd
    obtain ⟨-, hsp2⟩ := (spellsVia_cons_iff ..).mp hsp
    have hne2 : (lp ++ c :: lr) ≠ [] := by simp
    obtain ⟨ha2p, hspb⟩ := spellsVia_head s.nodes _ _ _ _ hne2 hsp2
    obtain ⟨cur2, hcur2⟩ : ∃ cur2, (lp ++ c :: lr).head? = some cur2 := by
      cases hc : (lp ++ c :: lr) with
      | nil => exact absurd hc hne2
      | cons x xs => exact ⟨x, rfl⟩
    have ha2 : (getNode s a).prev = some cur2 := by
      rw [show ((getNode s a).prev = (lp ++ c :: lr).head?) from ha2p, hcur2]
    have hlast2 : (lp ++ c :: lr).getLast? = some tp := by
      rw [← hlast, getLast?_cons_of_ne a _ hne2]
    have htpmem : tp ∈ lp ++ c :: lr := by
      rw [List.getLast?_eq_getLast _ hne2] at hlast2
      injection hlast2 with hl2
      rw [← hl2]
      exact List.getLast_mem hne2
    have hatp : a ≠ tp := by
      intro hcon
      subst hcon
      exact (List.nodup_cons.mp hnd).1 htpmem
    cases fuel with
    | zero => simp at hf
    | succ f =>
      simp only [pSBT_go, htp]
      rw [if_neg hatp]
      rw [if_neg (not_le.mpr (hgt a (by simp)))]
      rw [ha2]
      rw [hcur2] at hspb
      have hih := ih c lr cur2 f hcur2 hspb hlast2 (List.nodup_cons.mp hnd).2
        (fun u hu => hgt u (by simp [hu])) (by simp at hf ⊢; omega)
      show pSBT_go s nid cur2 f = pSBT_go s nid c (f + 1 - (a :: lp).length)
      rw [hih]
      congr 1
      simp only [List.length_cons]
      omega

/-- Arriving at a node whose key is not exceeded by the new node, the
insertion links the new node directly below it: the new node's upward
link points at that node, that node's downward link points at the new
node, and the old downward neighbour (or the stack bottom pointer, when
there was none) is relinked to the new node. -/
theorem pSBT_go_insert (s : StrategyState) (nid tp c : Nat)
    (htp : s.stackTop = some tp)
    (lp : List Nat)
    (hnidN : nid < s.nodes.length) (hcN : c < s.nodes.length)
    (hle : compareELRU (getNode s nid) (getNode s c) ≤ 0)
    (hcnext : (getNode s c).next = lp.getLast?)
    (hnidc : nid ≠ c)
    (hnxtne : ∀ nxt, lp.getLast? = some nxt → nxt ≠ nid ∧ nxt ≠ c ∧ nxt < s.nodes.length)
    (fuel : Nat) (hfu : fuel ≠ 0) :
    ∃ s2, pSBT_go s nid c fuel = some s2 ∧
      (getNode s2 nid).prev = some c ∧
      (getNode s2 c).next = some nid ∧
      (∀ nxt, lp.getLast? = some nxt →
        (getNode s2 nxt).prev = some nid ∧ (getNode s2 nid).next = some nxt) ∧
      (lp.getLast? = none → s2.stackBottom = some nid) := by
  cases fuel with
  | zero => exact absurd rfl hfu
  | succ f =>
    simp only [pSBT_go, htp]
    by_cases hctp : c = tp
    · rw [if_pos hctp, if_neg (not_lt.mpr hle), hcnext]
      cases hlast : lp.getLast? with
      | none =>
        refine ⟨_, rfl, ?_, ?_, ?_, ?_⟩
        · rw [getNode_update_stackBottom]
          rw [getNode_setNode_ne _ c _ nid hnidc]
          rw [getNode_setNode_self s nid _ hnidN]
        · rw [getNode_update_stackBottom]
          rw [getNode_setNode_self _ c _ (by simpa [setNode_length] using hcN)]
        · intro nxt h
          simp at h
        · intro h
          rfl
      | some nxt =>
        obtain ⟨hxn, hxc, hxN⟩ := hnxtne nxt hlast
        refine ⟨_, rfl, ?_, ?_, ?_, ?_⟩
        · rw [getNode_setNode_self _ nid _ (by simpa [setNode_length] using hnidN)]
        · rw [getNode_setNode_ne _ nid _ c (fun h => hnidc h.symm)]
          rw [getNode_setNode_self _ c _ (by simpa [setNode_length] using hcN)]
        · intro nxt2 h2
          obtain rfl : nxt = nxt2 := by simpa using h2
          constructor
          · rw [getNode_setNode_ne _ nid _ nxt hxn]
            rw [getNode_setNode_ne _ c _ nxt hxc]
            rw [getNode_setNode_ne _ nid _ nxt hxn]
            rw [getNode_setNode_self s nxt _ hxN]
          · rw [getNode_setNode_self _ nid _ (by simpa [setNode_length] using hnidN)]
            show (getNode _ nid).next = some nxt
            rw [getNode_setNode_ne _ c _ nid hnidc]
            rw [getNode_setNode_self _ nid _ (by simpa [setNode_length] using hnidN)]
        · intro h
          simp at h
    · rw [if_neg hctp, if_pos hle, hcnext]
      cases hlast : lp.getLast? with
      | none =>
        refine ⟨_, rfl, ?_, ?_, ?_, ?_⟩
        · rw [getNode_setNode_ne _ c _ nid hnidc]
          rw [getNode_setNode_self _ nid _ (by simpa [setNode_length] using hnidN)]
          show (getNode _ nid).prev = some c
          rw [getNode_setNode_self _ nid _ (by simpa [setNode_length] using hnidN)]
        · rw [getNode_setNode_self _ c _ (by simpa [setNode_length] using hcN)]
        · intro nxt h
          simp at h
        · intro h
          rfl
      | some nxt =>
        obtain ⟨hxn, hxc, hxN⟩ := hnxtne nxt hlast
        refine ⟨_, rfl, ?_, ?_, ?_, ?_⟩
        · rw [getNode_setNode_self _ nid _ (by simpa [setNode_length] using hnidN)]
        · rw [getNode_setNode_ne _ nid _ c (fun h => hnidc h.symm)]
          rw [getNode_setNode_self _ c _ (by simpa [setNode_length] using hcN)]
        · intro nxt2 h2
          obtain rfl : nxt = nxt2 := by simpa using h2
          constructor
          · rw [getNode_setNode_ne _ nid _ nxt hxn]
            rw [getNode_setNode_ne _ c _ nxt hxc]
            rw [getNode_setNode_ne _ nid _ nxt hxn]
            rw [getNode_setNode_self s nxt _ hxN]
          · rw [getNode_setNode_self _ nid _ (by simpa [setNode_length] using hnidN)]
            show (getNode _ nid).next = some nxt
            rw [getNode_setNode_ne _ c _ nid hnidc]
            rw [getNode_setNode_self _ nid _ (by simpa [setNode_length] using hnidN)]
        · intro h
          simp at h

/-- C9 (amended): when touch reaches processStackBottomToTop with a fresh
node, the walk from the bottom passes over every node whose key compares
strictly below the new node and inserts the new node directly BELOW the
first node met whose key compares equal (the comparator returning 0 fails
the strictly-greater test, stopping the walk): after insertion the new
node's upward link is that equal node, that node's downward link is the
new node, and the old downward neighbour (or the stack bottom pointer)
now points at the new node.  The original claim, refuted by
C9_equal_key_inserted_below, said the new node lands above all equals. -/
theorem C9_amended_tie_inserted_below (s : StrategyState) (nid c : Nat)
    (lp lr : List Nat)
    (hv : validStackB s (lp ++ c :: lr) = true)
    (hnidN : nid < s.nodes.length)
    (hfresh : nid ∉ lp ++ c :: lr)
    (hgt : ∀ a ∈ lp, 0 < compareELRU (getNode s nid) (getNode s a))
    (heq : compareELRU (getNode s nid) (getNode s c) = 0) :
    ∃ s2, processStackBottomToTop s nid = some s2 ∧
      (getNode s2 nid).prev = some c ∧
      (getNode s2 c).next = some nid ∧
      (∀ nxt, lp.getLast? = some nxt →
        (getNode s2 nxt).prev = some nid ∧ (getNode s2 nid).next = some nxt) ∧
      (lp = [] → s2.stackBottom = some nid) := by
  obtain ⟨hP, hN, hB, hnd⟩ := validStackB_parts hv
  have hlenle : (lp ++ c :: lr).length ≤ s.nodes.length :=
    nodup_bounded_length_le _ _ hnd hB
  have hne : (lp ++ c :: lr : List Nat) ≠ [] := by simp
  have hcN : c < s.nodes.length := hB c (by simp)
  have hnidc : nid ≠ c := fun hc => hfresh (by simp [hc])
  -- the top of the stack
  obtain ⟨hh1, -⟩ := spellsVia_head s.nodes (fun nd => nd.next) s.stackTop
    ((lp ++ c :: lr).reverse) none (by simpa using hne) hN
  obtain ⟨tp, tas, hrev2⟩ : ∃ tp tas, (lp ++ c :: lr).reverse = tp :: tas := by
    cases hc : (lp ++ c :: lr).reverse with
    | nil => rw [List.reverse_eq_nil_iff] at hc; exact absurd hc hne
    | cons a as => exact ⟨a, as, rfl⟩
  have htp : s.stackTop = some tp := by rw [hh1, hrev2]; rfl
  have hlast : (lp ++ c :: lr).getLast? = some tp := by
    rw [← List.head?_reverse, hrev2]
    rfl
  -- the downward link of the insertion point
  have hrevdec : (lp ++ c :: lr).reverse = lr.reverse ++ c :: lp.reverse := by simp
  rw [hrevdec] at hN
  obtain ⟨m2, hn1, hn2⟩ :=
    (spellsVia_append s.nodes (fun nd => nd.next) lr.reverse s.stackTop none
      (c :: lp.reverse)).mp hN
  obtain ⟨hn2c, hnrest⟩ := (spellsVia_cons_iff ..).mp hn2
  have hcnext : (getNode s c).next = lp.getLast? := by
    rw [← List.head?_reverse]
    cases hlpr : lp.reverse with
    | nil =>
      rw [hlpr] at hnrest
      simp only [spellsVia] at hnrest
      exact beq_iff_eq.mp hnrest
    | cons x xs =>
      rw [hlpr] at hnrest
      obtain ⟨hh, -⟩ := spellsVia_head s.nodes (fun nd => nd.next)
        ((getNode s c).next) (x :: xs) none (by simp) hnrest
      exact hh
  have hnxtne : ∀ nxt, lp.getLast? = some nxt →
      nxt ≠ nid ∧ nxt ≠ c ∧ nxt < s.nodes.length := by
    intro nxt hx
    have hlpne : lp ≠ [] := by
      intro hc
      rw [hc] at hx
      simp at hx
    have hmem : nxt ∈ lp := by
      rw [List.getLast?_eq_getLast _ hlpne] at hx
      injection hx with hx2
      rw [← hx2]
      exact List.getLast_mem hlpne
    refine ⟨?_, ?_, hB nxt (List.mem_append_left _ hmem)⟩
    · exact fun hc => hfresh (List.mem_append_left _ (hc ▸ hmem))
    · intro hc
      exact (List.nodup_append.mp hnd).2.2 (hc ▸ hmem) (by simp)
  have hfu : s.nodes.length + 1 - lp.length ≠ 0 := by
    simp only [List.length_append, List.length_cons] at hlenle
    omega
  obtain ⟨s2, hrun, hcl⟩ := pSBT_go_insert s nid tp c htp lp hnidN hcN (le_of_eq heq)
    hcnext hnidc hnxtne (s.nodes.length + 1 - lp.length) hfu
  have hbot : s.stackBottom = (lp ++ c :: lr).head? :=
    (spellsVia_head s.nodes (fun nd => nd.prev) s.stackBottom _ none hne hP).1
  obtain ⟨cur, hcur⟩ : ∃ cur, (lp ++ c :: lr).head? = some cur := by
    cases hc : (lp ++ c :: lr) with
    | nil => exact absurd hc hne
    | cons x xs => exact ⟨x, rfl⟩
  have hskip := pSBT_go_skip s nid tp htp lp c lr cur (s.nodes.length + 1) hcur
    (by rw [← hcur, ← hbot]; exact hP) hlast hnd hgt
    (by simp only [List.length_append, List.length_cons] at hlenle; omega)
  refine ⟨s2, ?_, hcl.1, hcl.2.1, hcl.2.2.1, ?_⟩
  · simp only [processStackBottomToTop]
    rw [hbot, hcur]
    show pSBT_go s nid cur (s.nodes.length + 1) = some s2
    rw [hskip]
    exact hrun
  · intro hlp
    exact hcl.2.2.2 (by rw [hlp]; rfl)

/-- Witness for C9_amended_tie_inserted_below: inserting frame 1, whose
key equals that of the sole resident frame 0, places frame 1 below
frame 0 and makes it the new stack bottom. -/
theorem C9_amended_tie_inserted_below_witness :
    compareELRU (getNode stateEqualKey 1) (getNode stateEqualKey 0) = 0 ∧
    ∃ s2, processStackBottomToTop stateEqualKey 1 = some s2 ∧
      (getNode s2 1).prev = some 0 ∧ (getNode s2 0).next = some 1 ∧
      s2.stackBottom = some 1 :=
  ⟨by decide, by
    obtain ⟨s2, h1, h2, h3, h4, h5⟩ := C9_amended_tie_inserted_below stateEqualKey 1 0 [] []
      (by decide) (by decide) (by decide) (by simp) (by decide)
    exact ⟨s2, h1, h2, h3, h5 rfl⟩⟩
